import Mathlib

/-!
Shallow embedding of the artist-to-concert resolution pipeline of the
spotify-concerts repository (src/spotify.py, src/ticketmaster.py), together
with theorems settling the specification claims about it.

Network calls are modelled by passing the decoded response data (or an
oracle producing it) as an explicit argument; all data-processing code is
translated statement by statement from the Python source.
-/

namespace PyStr

/-- Whether `needle` occurs at the start of `hay` (character lists). -/
def startsAt : List Char → List Char → Bool
  | _, [] => true
  | [], _ :: _ => false
  | h :: hs, n :: ns => h = n && startsAt hs ns

/-- Whether `needle` occurs somewhere inside `hay`: the Python test
`needle in hay` on strings (an empty needle occurs in every string). -/
def containsSub : List Char → List Char → Bool
  | [], needle => needle.isEmpty
  | h :: t, needle => startsAt (h :: t) needle || containsSub t needle

/-- The Python substring test `needle in hay`. -/
def strIn (needle hay : String) : Bool :=
  containsSub hay.toList needle.toList

theorem startsAt_iff (hay needle : List Char) :
    startsAt hay needle = true ↔ ∃ s, hay = needle ++ s := by
  induction needle generalizing hay with
  | nil => simp [startsAt]
  | cons n ns ih =>
    cases hay with
    | nil => simp [startsAt]
    | cons h hs =>
      simp only [startsAt, Bool.and_eq_true, decide_eq_true_eq, ih]
      constructor
      · rintro ⟨rfl, s, rfl⟩
        exact ⟨s, rfl⟩
      · rintro ⟨s, hs⟩
        simp only [List.cons_append, List.cons.injEq] at hs
        exact ⟨hs.1, s, hs.2⟩

theorem containsSub_iff (hay needle : List Char) :
    containsSub hay needle = true ↔ ∃ p s, hay = p ++ needle ++ s := by
  induction hay with
  | nil =>
    simp only [containsSub, List.isEmpty_iff]
    constructor
    · rintro rfl
      exact ⟨[], [], rfl⟩
    · rintro ⟨p, s, hps⟩
      rcases List.append_eq_nil.mp (List.append_eq_nil.mp hps.symm).1 with ⟨-, h2⟩
      exact h2
  | cons h t ih =>
    simp only [containsSub, Bool.or_eq_true, startsAt_iff, ih]
    constructor
    · rintro (⟨s, hs⟩ | ⟨p, s, hps⟩)
      · exact ⟨[], s, by simpa using hs⟩
      · exact ⟨h :: p, s, by simp [hps]⟩
    · rintro ⟨p, s, hps⟩
      cases p with
      | nil => exact Or.inl ⟨s, by simpa using hps⟩
      | cons q qs =>
        simp only [List.cons_append, List.cons.injEq] at hps
        exact Or.inr ⟨qs, s, hps.2⟩

theorem strIn_iff (needle hay : String) :
    strIn needle hay = true ↔ ∃ p s, hay.toList = p ++ needle.toList ++ s :=
  containsSub_iff hay.toList needle.toList

theorem strIn_empty (hay : String) : strIn "" hay = true := by
  rw [strIn_iff]
  exact ⟨[], hay.toList, by simp⟩

/-- Model of Python `str.lower` on ASCII input: lowercase each character
(written directly on the character list). -/
def lower (s : String) : String := String.mk (s.toList.map Char.toLower)

/-- Python string comparison: lexicographic by code point on the character
sequences (the same order as Lean's `String` order, written as an
explicitly computable function). -/
def chLe : List Char → List Char → Bool
  | [], _ => true
  | _ :: _, [] => false
  | x :: xs, y :: ys =>
    if x < y then true else if y < x then false else chLe xs ys

/-- String comparison `a <= b` as Python evaluates it. -/
def strLeB (a b : String) : Bool := chLe a.toList b.toList

theorem chLe_iff_not_lex (a b : List Char) :
    chLe a b = true ↔ ¬ List.Lex (· < ·) b a := by
  induction a generalizing b with
  | nil =>
    cases b with
    | nil => simp [chLe]
    | cons y ys =>
      simp only [chLe, true_iff]
      intro h
      cases h
  | cons x xs ih =>
    cases b with
    | nil =>
      simp only [chLe, Bool.false_eq_true, false_iff, not_not]
      exact List.Lex.nil
    | cons y ys =>
      rcases lt_trichotomy x y with hxy | hxy | hxy
      · simp only [chLe, if_pos hxy, true_iff]
        intro h
        cases h with
        | cons h' => exact lt_irrefl x hxy
        | rel h' => exact lt_asymm hxy h'
      · subst hxy
        rw [show chLe (x :: xs) (x :: ys) = chLe xs ys by
              simp only [chLe, if_neg (lt_irrefl x)], ih]
        constructor
        · intro h hlex
          cases hlex with
          | cons h' => exact h h'
          | rel h' => exact lt_irrefl x h'
        · intro h hlex
          exact h (List.Lex.cons hlex)
      · simp only [chLe, if_neg (lt_asymm hxy), if_pos hxy, Bool.false_eq_true,
          false_iff, not_not]
        exact List.Lex.rel hxy

theorem strLeB_le (a b : String) : strLeB a b = true ↔ a ≤ b := by
  rw [String.le_iff_toList_le, ← not_lt]
  exact chLe_iff_not_lex a.toList b.toList

end PyStr

namespace PyDate

/-!
Model of the two `datetime.strptime` calls and the `strftime` renderings
used by src/ticketmaster.py. CPython's `strptime` compiles the format to a
regular expression (`_strptime.TimeRE`): `%Y` is `\d\d\d\d`, `%m` is
`1[0-2]|0[1-9]|[1-9]`, `%d` is `3[01]|[12]\d|0[1-9]|[1-9]`, `%H` is
`2[0-3]|[0-1]\d|\d`, `%M` is `[0-5]\d|\d`, `%S` is `6[0-1]|[0-5]\d|\d`;
the match is anchored at the start, alternatives are tried left to right,
leftover characters raise ValueError, and the subsequent `datetime`
construction additionally requires year at least 1, a day that exists in
the month, and seconds at most 59.
-/

/-- Numeric value of a digit character. -/
def dv (c : Char) : Nat := c.toNat - '0'.toNat

/-- Match `\d\d\d\d` (the `%Y` directive). -/
def parseYear : List Char → Option (Nat × List Char)
  | a :: b :: c :: d :: rest =>
    if a.isDigit && b.isDigit && c.isDigit && d.isDigit then
      some (1000 * dv a + 100 * dv b + 10 * dv c + dv d, rest)
    else none
  | _ => none

/-- Match `1[0-2]|0[1-9]|[1-9]` (the `%m` directive). -/
def parseMonth : List Char → Option (Nat × List Char)
  | c1 :: c2 :: rest =>
    if c1 = '1' && ('0' ≤ c2 && c2 ≤ '2') then some (10 + dv c2, rest)
    else if c1 = '0' && ('1' ≤ c2 && c2 ≤ '9') then some (dv c2, rest)
    else if '1' ≤ c1 && c1 ≤ '9' then some (dv c1, c2 :: rest)
    else none
  | [c1] => if '1' ≤ c1 && c1 ≤ '9' then some (dv c1, []) else none
  | [] => none

/-- Match `3[01]|[12]\d|0[1-9]|[1-9]` (the `%d` directive). -/
def parseDay : List Char → Option (Nat × List Char)
  | c1 :: c2 :: rest =>
    if c1 = '3' && (c2 = '0' || c2 = '1') then some (30 + dv c2, rest)
    else if (c1 = '1' || c1 = '2') && c2.isDigit then some (10 * dv c1 + dv c2, rest)
    else if c1 = '0' && ('1' ≤ c2 && c2 ≤ '9') then some (dv c2, rest)
    else if '1' ≤ c1 && c1 ≤ '9' then some (dv c1, c2 :: rest)
    else none
  | [c1] => if '1' ≤ c1 && c1 ≤ '9' then some (dv c1, []) else none
  | [] => none

/-- Match `2[0-3]|[0-1]\d|\d` (the `%H` directive). -/
def parseHour : List Char → Option (Nat × List Char)
  | c1 :: c2 :: rest =>
    if c1 = '2' && ('0' ≤ c2 && c2 ≤ '3') then some (20 + dv c2, rest)
    else if (c1 = '0' || c1 = '1') && c2.isDigit then some (10 * dv c1 + dv c2, rest)
    else if c1.isDigit then some (dv c1, c2 :: rest)
    else none
  | [c1] => if c1.isDigit then some (dv c1, []) else none
  | [] => none

/-- Match `[0-5]\d|\d` (the `%M` directive). -/
def parseMinute : List Char → Option (Nat × List Char)
  | c1 :: c2 :: rest =>
    if ('0' ≤ c1 && c1 ≤ '5') && c2.isDigit then some (10 * dv c1 + dv c2, rest)
    else if c1.isDigit then some (dv c1, c2 :: rest)
    else none
  | [c1] => if c1.isDigit then some (dv c1, []) else none
  | [] => none

/-- Match `6[0-1]|[0-5]\d|\d` (the `%S` directive). -/
def parseSecond : List Char → Option (Nat × List Char)
  | c1 :: c2 :: rest =>
    if c1 = '6' && (c2 = '0' || c2 = '1') then some (60 + dv c2, rest)
    else if ('0' ≤ c1 && c1 ≤ '5') && c2.isDigit then some (10 * dv c1 + dv c2, rest)
    else if c1.isDigit then some (dv c1, c2 :: rest)
    else none
  | [c1] => if c1.isDigit then some (dv c1, []) else none
  | [] => none

/-- Consume one expected literal character. -/
def expectChar (c : Char) : List Char → Option (List Char)
  | x :: rest => if x = c then some rest else none
  | [] => none

/-- Gregorian leap-year rule used by `datetime`. -/
def isLeap (y : Nat) : Bool := y % 4 = 0 && (y % 100 ≠ 0 || y % 400 = 0)

/-- Number of days of month `m` in year `y`. -/
def daysInMonth (y m : Nat) : Nat :=
  if m = 2 then (if isLeap y then 29 else 28)
  else if m = 4 || m = 6 || m = 9 || m = 11 then 30
  else 31

/-- Model of `datetime.strptime(s, "%Y-%m-%d")`: regex match of the whole
string followed by `datetime(y, m, d)` validation; `none` stands for
ValueError. -/
def strptimeYMD (s : String) : Option (Nat × Nat × Nat) := do
  let (y, r1) ← parseYear s.toList
  let r2 ← expectChar '-' r1
  let (m, r3) ← parseMonth r2
  let r4 ← expectChar '-' r3
  let (d, r5) ← parseDay r4
  if r5 = [] && 1 ≤ y && d ≤ daysInMonth y m then some (y, m, d) else none

/-- Model of `datetime.strptime(s, "%H:%M:%S")`: regex match of the whole
string followed by range validation of the seconds field. -/
def strptimeHMS (s : String) : Option (Nat × Nat × Nat) := do
  let (h, r1) ← parseHour s.toList
  let r2 ← expectChar ':' r1
  let (mi, r3) ← parseMinute r2
  let r4 ← expectChar ':' r3
  let (sec, r5) ← parseSecond r4
  if r5 = [] && sec ≤ 59 then some (h, mi, sec) else none

/-- Abbreviated month name, as rendered by `strftime("%b")` in the C locale. -/
def monthAbbrev : Nat → String
  | 1 => "Jan" | 2 => "Feb" | 3 => "Mar" | 4 => "Apr"
  | 5 => "May" | 6 => "Jun" | 7 => "Jul" | 8 => "Aug"
  | 9 => "Sep" | 10 => "Oct" | 11 => "Nov" | 12 => "Dec"
  | _ => ""

/-- Zero-pad to two digits, as `%d`, `%I` and `%M` do. -/
def pad2 (n : Nat) : String := if n < 10 then "0" ++ toString n else toString n

/-- Zero-pad a year to four digits, as `%Y` does in CPython. -/
def pad4 (n : Nat) : String :=
  if n < 10 then "000" ++ toString n
  else if n < 100 then "00" ++ toString n
  else if n < 1000 then "0" ++ toString n
  else toString n

/-- Model of `dt.strftime("%b %d, %Y")`. -/
def strftimeBdY (y m d : Nat) : String :=
  monthAbbrev m ++ " " ++ pad2 d ++ ", " ++ pad4 y

/-- Model of `time_dt.strftime("%I:%M %p")` in the C locale. -/
def strftimeIMp (h mi : Nat) : String :=
  let h12 := if h % 12 = 0 then 12 else h % 12
  pad2 h12 ++ ":" ++ pad2 mi ++ " " ++ (if h < 12 then "AM" else "PM")

/-- The date-formatting block of `search_concerts_by_attraction`
(src/ticketmaster.py lines 87-97): empty date string keeps the initial
`""`; a date that fails to parse — or a nonempty time that fails to parse —
falls back to the raw date string (the ValueError handler); otherwise the
formatted date, with the formatted time appended when a nonempty time
string parses. -/
def formatEventDate (date_str time_str : String) : String :=
  if date_str = "" then ""
  else
    match strptimeYMD date_str with
    | none => date_str
    | some (y, m, d) =>
      if time_str = "" then strftimeBdY y m d
      else
        match strptimeHMS time_str with
        | none => date_str
        | some (h, mi, _) => strftimeBdY y m d ++ " at " ++ strftimeIMp h mi

end PyDate

example : PyDate.strptimeYMD "2024-07-04" = some (2024, 7, 4) := by decide
example : PyDate.strptimeYMD "not-a-date" = none := by decide
example : PyDate.strptimeYMD "" = none := by decide
example : PyDate.strptimeYMD "2024-02-30" = none := by decide
example : PyDate.formatEventDate "2024-07-04" "19:30:00" = "Jul 04, 2024 at 07:30 PM" := by decide
example : PyDate.formatEventDate "2024-07-04" "" = "Jul 04, 2024" := by decide
example : PyDate.formatEventDate "not-a-date" "19:30:00" = "not-a-date" := by decide

deriving instance DecidableEq for Except

namespace Spotify

/-- A value stored in an artist record built by `get_top_artists`. -/
inductive Val where
  | str (s : String)
  | optStr (s : Option String)
  | strList (l : List String)
deriving DecidableEq

/-- One item of the decoded Spotify top-artists response, restricted to the
fields `get_top_artists` reads; `images` is the list of image url strings,
in response order. -/
structure RawItem where
  id : String
  name : String
  images : List String
  genres : List String
deriving DecidableEq

/-- An artist record: a Python dict modelled as an association list in key
insertion order. -/
abbrev ArtistDict := List (String × Val)

/-- The artist dict built for one response item (src/spotify.py lines
76-81): the first image's url when the image list is nonempty, else None. -/
def mkArtist (item : RawItem) : ArtistDict :=
  [("id", .str item.id), ("name", .str item.name),
   ("image_url", .optStr item.images.head?), ("genres", .strList item.genres)]

/-- The normalization loop of `get_top_artists` (src/spotify.py lines
73-84), applied to the decoded response items. -/
def get_top_artists (items : List RawItem) : List ArtistDict :=
  items.map mkArtist

/-- Python string subscript `d[k]` on an artist record ( `""` stands for the
KeyError case, which cannot arise for records built by `mkArtist`). -/
def getStr (d : ArtistDict) (k : String) : String :=
  match d.lookup k with
  | some (.str v) => v
  | _ => ""

/-- Python dict assignment `d[k] = v`: overwrites the value in place when
the key exists (keeping its position), else appends the new key at the
end — dicts preserve insertion order. -/
def dinsert {β : Type} (k : String) (v : β) : List (String × β) → List (String × β)
  | [] => [(k, v)]
  | (k', v') :: t => if k' = k then (k, v) :: t else (k', v') :: dinsert k v t

/-- The per-artist body of the aggregation loop (src/spotify.py lines
99-102): bump the id's count and overwrite its metadata. -/
def tally (st : List (String × Nat) × List (String × ArtistDict)) (artist : ArtistDict) :
    List (String × Nat) × List (String × ArtistDict) :=
  let artist_id := getStr artist "id"
  (dinsert artist_id ((st.1.lookup artist_id).getD 0 + 1) st.1,
   dinsert artist_id artist st.2)

/-- Ordering used by `sorted(..., key=lambda x: artist_counts[x],
reverse=True)`: Python's sort is stable, and `reverse=True` keeps elements
with equal keys in their original order, so it is a stable sort by the
reversed comparison. -/
def countGE (artist_counts : List (String × Nat)) (a b : String) : Prop :=
  (artist_counts.lookup b).getD 0 ≤ (artist_counts.lookup a).getD 0

instance (artist_counts : List (String × Nat)) : DecidableRel (countGE artist_counts) :=
  fun _ _ => Nat.decLe _ _

/-- Model of `get_all_top_artists` (src/spotify.py lines 87-107), with the three
per-window fetches supplied as decoded response item lists. The nested loop
tallies counts and metadata over the windows in the fixed order
short, medium, long; the ids are then sorted by descending count with
Python's stable sort (modelled by insertion sort, which computes the same
list as every stable sort), and mapped back through the metadata dict. -/
def get_all_top_artists (short medium long : List RawItem) : List ArtistDict :=
  let windows := [get_top_artists short, get_top_artists medium, get_top_artists long]
  let st := windows.foldl (fun st w => w.foldl tally st) ([], [])
  let artist_counts := st.1
  let artist_data := st.2
  let sorted_ids := (artist_counts.map Prod.fst).insertionSort (countGE artist_counts)
  sorted_ids.map (fun aid => (artist_data.lookup aid).getD [])

end Spotify

example :
    Spotify.get_all_top_artists
      [⟨"a", "A", [], []⟩, ⟨"b", "B", ["u"], ["rock"]⟩]
      [⟨"b", "B", [], []⟩]
      [⟨"c", "C", [], []⟩, ⟨"b", "B2", [], []⟩] =
    [Spotify.mkArtist ⟨"b", "B2", [], []⟩, Spotify.mkArtist ⟨"a", "A", [], []⟩,
     Spotify.mkArtist ⟨"c", "C", [], []⟩] := by decide

namespace TM

/-- One image of a decoded event: the two fields read by the image loop
(`img.get("width", 0)` and `img["url"]`). -/
structure RawImage where
  width : Option Nat
  url : String
deriving DecidableEq

/-- One decoded event of the Ticketmaster events response, restricted to
the fields `search_concerts_by_attraction` reads. `localDate`/`localTime`
model `dates.start.localDate`/`localTime` (absent keys are `none`);
`venues` is `none` when the event has no embedded venues section, else the
list of the venues' optional names; `url` models the optional top-level
`url` key. -/
structure RawEvent where
  id : String
  name : String
  localDate : Option String
  localTime : Option String
  venues : Option (List (Option String))
  images : List RawImage
  url : Option String
deriving DecidableEq

/-- A concert dict as built in src/ticketmaster.py lines 106-114. -/
structure Concert where
  id : String
  name : String
  date : String
  raw_date : String
  venue : String
  url : String
  image_url : Option String
deriving DecidableEq

/-- The image-selection loop (lines 99-104): url of the first image of
width at least 300, else None. -/
def firstBigImage : List RawImage → Option String
  | [] => none
  | img :: rest => if 300 ≤ img.width.getD 0 then some img.url else firstBigImage rest

/-- The per-event normalization body of the events loop (lines 73-115). -/
def normalizeEvent (e : RawEvent) : Concert :=
  let venue_name := match e.venues with
    | some (v :: _) => v.getD "TBA"
    | _ => "TBA"
  let date_str := e.localDate.getD ""
  let time_str := e.localTime.getD ""
  { id := e.id
    name := e.name
    date := PyDate.formatEventDate date_str time_str
    raw_date := date_str
    venue := venue_name
    url := e.url.getD ""
    image_url := firstBigImage e.images }

/-- Model of `search_concerts_by_attraction` (lines 47-117) applied to the decoded
response: `none` models a response without an `_embedded` section (empty
event list), else the decoded event list. -/
def search_concerts_by_attraction (resp : Option (List RawEvent)) : List Concert :=
  match resp with
  | none => []
  | some evs => evs.map normalizeEvent

/-- One candidate of the attractions search response: `attraction["id"]`
and the optional display name read via `attraction.get("name", "")`. -/
structure Attraction where
  id : String
  name : Option String
deriving DecidableEq

/-- The candidate loop of `find_attraction_id` (lines 38-44): first
candidate whose lowercased name equals the lowercased artist name or
contains it as a substring. -/
def matchLoop (artist_lower : String) : List Attraction → Option String
  | [] => none
  | a :: rest =>
    let attraction_name := PyStr.lower (a.name.getD "")
    if attraction_name = artist_lower || PyStr.strIn artist_lower attraction_name then
      some a.id
    else matchLoop artist_lower rest

/-- Model of `find_attraction_id` (lines 12-44) applied to the decoded response:
`none` models a response without an `_embedded` section. -/
def find_attraction_id (artist_name : String) (resp : Option (List Attraction)) :
    Option String :=
  match resp with
  | none => none
  | some attractions => matchLoop (PyStr.lower artist_name) attractions

/-- Error raised by a catalog call: a non-2xx HTTP response
(`requests.exceptions.HTTPError` carrying the status code) or a transport
failure (any other `requests` exception, not an `HTTPError`). -/
inductive ReqError where
  | http (status : Nat)
  | transport
deriving DecidableEq

/-- An input artist record of `find_concerts_for_artists`: the `name` key
and the optional `image_url` read via `artist.get("image_url")`. -/
structure ArtistIn where
  name : String
  image_url : Option String
deriving DecidableEq

/-- The artist provenance attached to a concert (lines 171-174). -/
structure ArtistTag where
  name : String
  image_url : Option String
deriving DecidableEq

/-- A concert dict after the orchestrator added the `artist` key. -/
structure OutConcert where
  base : Concert
  artist : ArtistTag
deriving DecidableEq

/-- Oracle for the `find_attraction_id` call made for one artist name:
either an error raised by the request, or its return value. -/
abbrev MatchOracle := String → Except ReqError (Option String)

/-- Oracle for the `search_concerts_by_attraction` call made for one
attraction id: either an error raised by the request, or its return
value. -/
abbrev FetchOracle := String → Except ReqError (List Concert)

/-- The dedup-and-attach loop over one artist's concerts (lines 164-175).
The state is the pair of the accumulated output list and the seen-event-id
set (modelled as a list queried by membership). -/
def addConcerts (tag : ArtistTag) (st : List OutConcert × List String) :
    List Concert → List OutConcert × List String
  | [] => st
  | c :: rest =>
    if c.id ∈ st.2 then addConcerts tag st rest
    else addConcerts tag (st.1 ++ [⟨c, tag⟩], c.id :: st.2) rest

/-- The try-block of the per-artist loop (lines 145-155): run the
attraction lookup, skip on a falsy attraction id (the `if not
attraction_id: continue`, also taken for an empty-string id), then run the
event fetch. `.ok none` is a skip, `.error e` an exception escaping the
try-block. -/
def processArtistBody (m : MatchOracle) (f : FetchOracle) (artist : ArtistIn) :
    Except ReqError (Option (List Concert)) :=
  match m artist.name with
  | .error e => .error e
  | .ok none => .ok none
  | .ok (some attraction_id) =>
    if attraction_id = "" then .ok none
    else
      match f attraction_id with
      | .error e => .error e
      | .ok concerts => .ok (some concerts)

/-- The body of the per-artist loop (lines 143-175): the try-block, the
`except HTTPError` handler — an HTTPError with status 429 is caught and
the artist skipped, every other HTTPError is re-raised and every
non-HTTPError exception is not caught at all, so both propagate — and the
dedup-and-attach loop over the fetched concerts. -/
def processArtist (m : MatchOracle) (f : FetchOracle)
    (st : List OutConcert × List String) (artist : ArtistIn) :
    Except ReqError (List OutConcert × List String) :=
  match processArtistBody m f artist with
  | .error e => if e = .http 429 then .ok st else .error e
  | .ok none => .ok st
  | .ok (some concerts) => .ok (addConcerts ⟨artist.name, artist.image_url⟩ st concerts)

/-- The sequential artist loop (lines 138-175): the state threads through
the artists, and an uncaught error aborts the whole run. -/
def goArtists (m : MatchOracle) (f : FetchOracle) :
    List ArtistIn → List OutConcert × List String →
    Except ReqError (List OutConcert × List String)
  | [], st => .ok st
  | a :: rest, st =>
    match processArtist m f st a with
    | .error e => .error e
    | .ok st' => goArtists m f rest st'

/-- Sort relation of the final `all_concerts.sort(key=lambda x:
x.get("raw_date", "9999-99-99"))` (line 178). Every concert dict built by
`search_concerts_by_attraction` carries the `raw_date` key, so the
`"9999-99-99"` default of the key function never applies and the sort key
is the `raw_date` value itself. -/
def concertLE (a b : OutConcert) : Prop := a.base.raw_date ≤ b.base.raw_date

instance : DecidableRel concertLE := fun a b =>
  decidable_of_iff (PyStr.strLeB a.base.raw_date b.base.raw_date = true)
    (PyStr.strLeB_le a.base.raw_date b.base.raw_date)

/-- Model of `find_concerts_for_artists` (lines 120-180): process the first
`max_artists` artists sequentially, then stable-sort the accumulated list
ascending by raw date (Python's stable `list.sort`, modelled by insertion
sort). -/
def find_concerts_for_artists (m : MatchOracle) (f : FetchOracle)
    (artists : List ArtistIn) (max_artists : Nat) :
    Except ReqError (List OutConcert) :=
  match goArtists m f (artists.take max_artists) ([], []) with
  | .error e => .error e
  | .ok st => .ok (st.1.insertionSort concertLE)

/-- The name predicate of the Attraction Matcher as the spec states it:
exact case-insensitive equality, or case-insensitive containment of the
query as a substring of the candidate name. -/
def specMatch (artist_name : String) (a : Attraction) : Prop :=
  PyStr.lower (a.name.getD "") = PyStr.lower artist_name ∨
  ∃ p s, (PyStr.lower (a.name.getD "")).toList =
    p ++ (PyStr.lower artist_name).toList ++ s

theorem matchCond_iff (q : String) (a : Attraction) :
    (decide (PyStr.lower (a.name.getD "") = PyStr.lower q) ||
      PyStr.strIn (PyStr.lower q) (PyStr.lower (a.name.getD ""))) = true ↔
    specMatch q a := by
  simp only [Bool.or_eq_true, decide_eq_true_eq, PyStr.strIn_iff, specMatch]

theorem matchLoop_none_iff (ql : String) (l : List Attraction) :
    matchLoop ql l = none ↔
      ∀ a ∈ l, (decide (PyStr.lower (a.name.getD "") = ql) ||
        PyStr.strIn ql (PyStr.lower (a.name.getD ""))) = false := by
  induction l with
  | nil => simp [matchLoop]
  | cons a rest ih =>
    simp only [matchLoop, List.mem_cons]
    by_cases h : (decide (PyStr.lower (a.name.getD "") = ql) ||
        PyStr.strIn ql (PyStr.lower (a.name.getD ""))) = true
    · rw [if_pos h]
      constructor
      · intro hc
        exact absurd hc (by simp)
      · intro hall
        have := hall a (Or.inl rfl)
        rw [h] at this
        exact absurd this (by simp)
    · rw [if_neg h, ih]
      constructor
      · intro hall b hb
        rcases hb with rfl | hb
        · simpa using h
        · exact hall b hb
      · intro hall b hb
        exact hall b (Or.inr hb)

theorem matchLoop_some (ql : String) (l : List Attraction) (i : String)
    (h : matchLoop ql l = some i) :
    ∃ pre a post, l = pre ++ a :: post ∧
      (decide (PyStr.lower (a.name.getD "") = ql) ||
        PyStr.strIn ql (PyStr.lower (a.name.getD ""))) = true ∧ i = a.id ∧
      ∀ b ∈ pre, (decide (PyStr.lower (b.name.getD "") = ql) ||
        PyStr.strIn ql (PyStr.lower (b.name.getD ""))) = false := by
  induction l with
  | nil => simp [matchLoop] at h
  | cons a rest ih =>
    simp only [matchLoop] at h
    by_cases hc : (decide (PyStr.lower (a.name.getD "") = ql) ||
        PyStr.strIn ql (PyStr.lower (a.name.getD ""))) = true
    · rw [if_pos hc] at h
      exact ⟨[], a, rest, rfl, hc, (Option.some.injEq _ _).mp h.symm, by simp⟩
    · rw [if_neg hc] at h
      obtain ⟨pre, b, post, hl, hb, hi, hpre⟩ := ih h
      refine ⟨a :: pre, b, post, by rw [hl]; rfl, hb, hi, ?_⟩
      intro c hcmem
      rcases List.mem_cons.mp hcmem with rfl | hcmem
      · simpa using hc
      · exact hpre c hcmem

end TM

/-- C4: given the candidate attractions of the catalog search,
`find_attraction_id` returns the id of the first candidate, in
catalog-returned order, whose case-folded name exactly equals the
case-folded input name or contains it as a substring; if no candidate
satisfies this predicate, or the search response has no embedded results,
it reports no match; a candidate name disjoint from the query never
matches (it is skipped, as the first-match decomposition shows). -/
theorem C4_attraction_matching (artist_name : String) :
    TM.find_attraction_id artist_name none = none ∧
    (∀ l, TM.find_attraction_id artist_name (some l) = none ↔
      ∀ a ∈ l, ¬ TM.specMatch artist_name a) ∧
    (∀ l i, TM.find_attraction_id artist_name (some l) = some i →
      ∃ pre a post, l = pre ++ a :: post ∧ TM.specMatch artist_name a ∧
        i = a.id ∧ ∀ b ∈ pre, ¬ TM.specMatch artist_name b) := by
  refine ⟨rfl, ?_, ?_⟩
  · intro l
    rw [show TM.find_attraction_id artist_name (some l) =
      TM.matchLoop (PyStr.lower artist_name) l from rfl]
    rw [TM.matchLoop_none_iff]
    constructor
    · intro hall a ha
      rw [← TM.matchCond_iff artist_name a, hall a ha]
      simp
    · intro hall a ha
      have := (TM.matchCond_iff artist_name a).not.mpr (hall a ha)
      simpa using this
  · intro l i h
    obtain ⟨pre, a, post, hl, ha, hi, hpre⟩ :=
      TM.matchLoop_some (PyStr.lower artist_name) l i h
    refine ⟨pre, a, post, hl, (TM.matchCond_iff artist_name a).mp ha, hi, ?_⟩
    intro b hb
    have := hpre b hb
    rw [← TM.matchCond_iff artist_name b]
    simp [this]

/-- Witness for C4 at a concrete catalog response: the query "Muse" skips
the disjoint first candidate and matches the second by substring
containment. -/
theorem C4_witness :
    TM.find_attraction_id "Muse" (some
      [⟨"K1", some "Radiohead"⟩, ⟨"K2", some "Muse (Band)"⟩]) = some "K2" ∧
    TM.specMatch "Muse" ⟨"K2", some "Muse (Band)"⟩ := by
  constructor
  · decide
  · obtain ⟨-, -, hsome⟩ := C4_attraction_matching "Muse"
    obtain ⟨pre, a, post, hl, ha, hi, -⟩ :=
      hsome [⟨"K1", some "Radiohead"⟩, ⟨"K2", some "Muse (Band)"⟩] "K2" (by decide)
    have hmem : a ∈ [(⟨"K1", some "Radiohead"⟩ : TM.Attraction),
        ⟨"K2", some "Muse (Band)"⟩] := by
      rw [hl]
      exact List.mem_append_right _ (List.mem_cons_self a post)
    have hane : a ≠ ⟨"K1", some "Radiohead"⟩ := by
      intro hEq
      rw [hEq] at hi
      exact absurd hi (by decide)
    rcases List.mem_cons.mp hmem with hcase | hcase
    · exact absurd hcase hane
    · have : a = ⟨"K2", some "Muse (Band)"⟩ := by
        rcases List.mem_cons.mp hcase with h2 | h2
        · exact h2
        · simp at h2
      rw [← this]
      exact ha

/-- C10: with the empty string as artist name, the case-folded query is
the empty string, the substring test accepts every candidate, and
`find_attraction_id` returns the first catalog candidate's id whenever the
response has any embedded attraction. -/
theorem C10_empty_query (a : TM.Attraction) (rest : List TM.Attraction) :
    TM.find_attraction_id "" (some (a :: rest)) = some a.id := by
  show TM.matchLoop (PyStr.lower "") (a :: rest) = some a.id
  have hq : PyStr.lower "" = "" := rfl
  rw [hq]
  show (if (decide (PyStr.lower (a.name.getD "") = "") ||
      PyStr.strIn "" (PyStr.lower (a.name.getD ""))) = true
    then some a.id else TM.matchLoop "" rest) = some a.id
  rw [if_pos (by rw [PyStr.strIn_empty]; simp)]

/-- C9: the date normalization maps ("2024-07-04", "19:30:00") to
"Jul 04, 2024 at 07:30 PM" and ("2024-07-04", "") to "Jul 04, 2024"; on a
date parse failure (such as "not-a-date"), and likewise on a time parse
failure, it falls back to the raw date string; it is a total function, so
no request fails because of a formatting error. -/
theorem C9_date_formatting :
    PyDate.formatEventDate "2024-07-04" "19:30:00" = "Jul 04, 2024 at 07:30 PM" ∧
    PyDate.formatEventDate "2024-07-04" "" = "Jul 04, 2024" ∧
    PyDate.formatEventDate "not-a-date" "19:30:00" = "not-a-date" ∧
    (∀ date_str time_str : String, PyDate.strptimeYMD date_str = none →
      PyDate.formatEventDate date_str time_str = date_str) ∧
    (∀ date_str time_str : String, time_str ≠ "" →
      PyDate.strptimeHMS time_str = none →
      PyDate.formatEventDate date_str time_str = date_str) := by
  refine ⟨by decide, by decide, by decide, ?_, ?_⟩
  · intro date_str time_str h
    unfold PyDate.formatEventDate
    by_cases hd : date_str = ""
    · rw [if_pos hd, hd]
    · rw [if_neg hd, h]
  · intro date_str time_str ht h
    unfold PyDate.formatEventDate
    by_cases hd : date_str = ""
    · rw [if_pos hd, hd]
    · rw [if_neg hd]
      cases hy : PyDate.strptimeYMD date_str with
      | none => rfl
      | some v =>
        obtain ⟨y, m, d⟩ := v
        show (if time_str = "" then PyDate.strftimeBdY y m d
          else match PyDate.strptimeHMS time_str with
            | none => date_str
            | some (hh, mi, _) =>
              PyDate.strftimeBdY y m d ++ " at " ++ PyDate.strftimeIMp hh mi) = date_str
        rw [if_neg ht, h]

/-- Witness for C9's conditional conjuncts at concrete inputs. -/
theorem C9_witness :
    PyDate.formatEventDate "nope" "12:00:00" = "nope" ∧
    PyDate.formatEventDate "2024-07-04" "25:00:00" = "2024-07-04" :=
  ⟨C9_date_formatting.2.2.2.1 "nope" "12:00:00" (by decide),
   C9_date_formatting.2.2.2.2 "2024-07-04" "25:00:00" (by decide) (by decide)⟩

namespace TM

theorem goArtists_append (m : MatchOracle) (f : FetchOracle)
    (l1 l2 : List ArtistIn) (st : List OutConcert × List String) :
    goArtists m f (l1 ++ l2) st =
      match goArtists m f l1 st with
      | .error e => .error e
      | .ok st' => goArtists m f l2 st' := by
  induction l1 generalizing st with
  | nil => rfl
  | cons a rest ih =>
    have hstep : ∀ (l : List ArtistIn),
        goArtists m f (a :: l) st =
          match processArtist m f st a with
          | Except.error e => Except.error e
          | Except.ok st' => goArtists m f l st' := fun _ => rfl
    rw [show a :: rest ++ l2 = a :: (rest ++ l2) from rfl, hstep (rest ++ l2), hstep rest]
    cases processArtist m f st a with
    | error e => rfl
    | ok st' => exact ih st'

theorem processArtistBody_error (m : MatchOracle) (f : FetchOracle)
    (a : ArtistIn) (e : ReqError)
    (h : m a.name = .error e ∨
      ∃ aid, m a.name = .ok (some aid) ∧ aid ≠ "" ∧ f aid = .error e) :
    processArtistBody m f a = .error e := by
  rcases h with hm | ⟨aid, hm, hne, hf⟩
  · unfold processArtistBody
    rw [hm]
  · unfold processArtistBody
    rw [hm]
    show (if aid = "" then Except.ok none
      else match f aid with
        | .error e => .error e
        | .ok concerts => .ok (some concerts)) = Except.error e
    rw [if_neg hne, hf]

theorem processArtist_skip_429 (m : MatchOracle) (f : FetchOracle)
    (st : List OutConcert × List String) (a : ArtistIn)
    (h : processArtistBody m f a = .error (.http 429)) :
    processArtist m f st a = .ok st := by
  unfold processArtist
  rw [h]
  show (if ReqError.http 429 = ReqError.http 429 then Except.ok st
    else Except.error (ReqError.http 429)) = Except.ok st
  rw [if_pos rfl]

theorem processArtist_fatal (m : MatchOracle) (f : FetchOracle)
    (st : List OutConcert × List String) (a : ArtistIn) (e : ReqError)
    (hb : processArtistBody m f a = .error e) (hne : e ≠ .http 429) :
    processArtist m f st a = .error e := by
  unfold processArtist
  rw [hb]
  show (if e = ReqError.http 429 then Except.ok st else Except.error e) = Except.error e
  rw [if_neg hne]

end TM

/-- C7: if the attraction lookup or the event fetch of one artist fails
with HTTP 429, the artist is skipped without retrying and without
aborting: the run computes exactly what the run without that artist
computes, so all later artists within the cap are still processed and
contribute their events, and no error is reported. -/
theorem C7_rate_limit_resilience (m : TM.MatchOracle) (f : TM.FetchOracle)
    (l1 l2 : List TM.ArtistIn) (a : TM.ArtistIn) (cap : Nat)
    (hcap : l1.length + 1 + l2.length ≤ cap)
    (h429 : m a.name = .error (.http 429) ∨
      ∃ aid, m a.name = .ok (some aid) ∧ aid ≠ "" ∧ f aid = .error (.http 429)) :
    TM.find_concerts_for_artists m f (l1 ++ a :: l2) cap =
      TM.find_concerts_for_artists m f (l1 ++ l2) cap := by
  have hlen1 : (l1 ++ a :: l2).length ≤ cap := by
    simp only [List.length_append, List.length_cons]
    omega
  have hlen2 : (l1 ++ l2).length ≤ cap := by
    simp only [List.length_append]
    omega
  unfold TM.find_concerts_for_artists
  rw [List.take_of_length_le hlen1, List.take_of_length_le hlen2,
    TM.goArtists_append, TM.goArtists_append]
  cases TM.goArtists m f l1 ([], []) with
  | error e => rfl
  | ok st =>
    show (match (match TM.processArtist m f st a with
        | Except.error e => Except.error e
        | Except.ok st' => TM.goArtists m f l2 st') with
      | Except.error e => Except.error e
      | Except.ok st => Except.ok (st.1.insertionSort TM.concertLE)) = _
    rw [TM.processArtist_skip_429 m f st a
      (TM.processArtistBody_error m f a (.http 429) h429)]

/-- Witness for C7: artist "B" is rate-limited at the event fetch; the
run with "B" equals the run without "B", and both report the concert
found for the later artist "C". -/
theorem C7_witness :
    TM.find_concerts_for_artists
      (fun n => if n = "B" then .ok (some "AB") else if n = "C" then .ok (some "AC") else .ok none)
      (fun aid => if aid = "AB" then .error (.http 429)
        else .ok [⟨"E9", "N", "", "2024-09-01", "TBA", "", none⟩])
      ([⟨"A", none⟩] ++ ⟨"B", none⟩ :: [⟨"C", none⟩]) 25 =
    TM.find_concerts_for_artists
      (fun n => if n = "B" then .ok (some "AB") else if n = "C" then .ok (some "AC") else .ok none)
      (fun aid => if aid = "AB" then .error (.http 429)
        else .ok [⟨"E9", "N", "", "2024-09-01", "TBA", "", none⟩])
      ([⟨"A", none⟩] ++ [⟨"C", none⟩]) 25 ∧
    TM.find_concerts_for_artists
      (fun n => if n = "B" then .ok (some "AB") else if n = "C" then .ok (some "AC") else .ok none)
      (fun aid => if aid = "AB" then .error (.http 429)
        else .ok [⟨"E9", "N", "", "2024-09-01", "TBA", "", none⟩])
      ([⟨"A", none⟩] ++ [⟨"C", none⟩]) 25 =
      .ok [⟨⟨"E9", "N", "", "2024-09-01", "TBA", "", none⟩, ⟨"C", none⟩⟩] :=
  ⟨C7_rate_limit_resilience _ _ [⟨"A", none⟩] [⟨"C", none⟩] ⟨"B", none⟩ 25
    (by decide)
    (Or.inr ⟨"AB", by decide, by decide, by decide⟩),
   by decide⟩

/-- C8: a catalog failure other than HTTP 429 — another non-2xx HTTP
response or a transport failure — at any artist within the cap is fatal:
`find_concerts_for_artists` propagates the error to its caller instead of
returning the events accumulated from the earlier artists as a success
result. -/
theorem C8_fatal_error_propagation (m : TM.MatchOracle) (f : TM.FetchOracle)
    (l1 l2 : List TM.ArtistIn) (a : TM.ArtistIn) (cap : Nat)
    (st : List TM.OutConcert × List String) (e : TM.ReqError)
    (hcap : l1.length < cap)
    (hok : TM.goArtists m f l1 ([], []) = .ok st)
    (hne : e ≠ .http 429)
    (herr : m a.name = .error e ∨
      ∃ aid, m a.name = .ok (some aid) ∧ aid ≠ "" ∧ f aid = .error e) :
    TM.find_concerts_for_artists m f (l1 ++ a :: l2) cap = .error e := by
  have htake : (l1 ++ a :: l2).take cap = l1 ++ a :: l2.take (cap - l1.length - 1) := by
    rw [List.take_append_eq_append_take, List.take_of_length_le (le_of_lt hcap)]
    congr 1
    have : cap - l1.length = (cap - l1.length - 1) + 1 := by omega
    rw [this, List.take_succ_cons, Nat.add_sub_cancel]
  unfold TM.find_concerts_for_artists
  rw [htake, TM.goArtists_append, hok]
  show (match (match TM.processArtist m f st a with
      | Except.error e => Except.error e
      | Except.ok st' => TM.goArtists m f (l2.take (cap - l1.length - 1)) st') with
    | Except.error e => Except.error e
    | Except.ok st => Except.ok (st.1.insertionSort TM.concertLE)) = _
  rw [TM.processArtist_fatal m f st a e
    (TM.processArtistBody_error m f a e herr) hne]

/-- Witness for C8: artist #2 of 3 receives HTTP 500 at the event fetch
while artist #1 already found one event; the whole run reports the error. -/
theorem C8_witness :
    TM.find_concerts_for_artists
      (fun n => if n = "A" then .ok (some "AA") else .ok (some "AB"))
      (fun aid => if aid = "AA"
        then .ok [⟨"E1", "N", "", "2024-09-01", "TBA", "", none⟩]
        else .error (.http 500))
      ([⟨"A", none⟩] ++ ⟨"B", none⟩ :: [⟨"C", none⟩]) 25 = .error (.http 500) :=
  C8_fatal_error_propagation
    (fun n => if n = "A" then .ok (some "AA") else .ok (some "AB"))
    (fun aid => if aid = "AA"
      then .ok [⟨"E1", "N", "", "2024-09-01", "TBA", "", none⟩]
      else .error (.http 500))
    [⟨"A", none⟩] [⟨"C", none⟩] ⟨"B", none⟩ 25
    ([⟨⟨"E1", "N", "", "2024-09-01", "TBA", "", none⟩, ⟨"A", none⟩⟩], ["E1"])
    (.http 500) (by decide) (by decide) (by decide)
    (Or.inr ⟨"AB", by decide, by decide, by decide⟩)

namespace TM

theorem concertLE_trans : ∀ a b c : OutConcert,
    concertLE a b → concertLE b c → concertLE a c :=
  fun _ _ _ h1 h2 => le_trans h1 h2

theorem concertLE_total : ∀ a b : OutConcert, concertLE a b ∨ concertLE b a :=
  fun a b => le_total a.base.raw_date b.base.raw_date

instance : IsTrans OutConcert concertLE := ⟨concertLE_trans⟩

instance : IsTotal OutConcert concertLE := ⟨concertLE_total⟩

/-- Fixed concrete data reused by several witnesses: one artist whose
attraction search finds "A1", and an event fetch returning a
normalized two-event batch — one event with a parseable date, one with no
date at all. -/
def exM : MatchOracle := fun n => if n = "X" then .ok (some "A1") else .ok none

/-- Concrete decoded event with local date 2024-07-04. -/
def exE1 : RawEvent := ⟨"E1", "N1", some "2024-07-04", none, none, [], none⟩

/-- Concrete decoded event with no `dates.start.localDate` key. -/
def exE2 : RawEvent := ⟨"E2", "N2", none, none, none, [], none⟩

/-- Fetch oracle returning the normalization of the two events above. -/
def exF : FetchOracle := fun _ => .ok (search_concerts_by_attraction (some [exE1, exE2]))

end TM

/-- C6: on a run that completes without a fatal error with accumulated
state st, the output of `find_concerts_for_artists` is exactly the
accumulated event list stably sorted ascending by `raw_date`: it is a
permutation of the accumulated list, pairwise sorted (so whenever A
appears before B, `A.raw_date ≤ B.raw_date`, in particular for pairs with
parseable dates), and any two accumulated events with equal `raw_date`
keep their discovery order. -/
theorem C6_stable_sort (m : TM.MatchOracle) (f : TM.FetchOracle)
    (artists : List TM.ArtistIn) (cap : Nat)
    (st : List TM.OutConcert × List String)
    (hrun : TM.goArtists m f (artists.take cap) ([], []) = .ok st) :
    TM.find_concerts_for_artists m f artists cap =
      .ok (st.1.insertionSort TM.concertLE) ∧
    List.Pairwise TM.concertLE (st.1.insertionSort TM.concertLE) ∧
    (st.1.insertionSort TM.concertLE).Perm st.1 ∧
    (∀ a b : TM.OutConcert, List.Sublist [a, b] st.1 →
      a.base.raw_date = b.base.raw_date →
      List.Sublist [a, b] (st.1.insertionSort TM.concertLE)) ∧
    (∀ (i j : Nat) (hi : i < (st.1.insertionSort TM.concertLE).length)
      (hj : j < (st.1.insertionSort TM.concertLE).length),
      ((st.1.insertionSort TM.concertLE).get ⟨i, hi⟩).base.raw_date <
        ((st.1.insertionSort TM.concertLE).get ⟨j, hj⟩).base.raw_date → i < j) := by
  refine ⟨?_, ?_, ?_, ?_, ?_⟩
  · unfold TM.find_concerts_for_artists
    rw [hrun]
  · exact List.sorted_insertionSort TM.concertLE st.1
  · exact List.perm_insertionSort TM.concertLE st.1
  · intro a b hsub heq
    exact List.sublist_insertionSort
      (List.pairwise_pair.mpr (le_of_eq heq)) hsub
  · intro i j hi hj hlt
    by_contra hnot
    have hji : j ≤ i := Nat.le_of_not_lt hnot
    rcases Nat.eq_or_lt_of_le hji with hEq | hlt2
    · subst hEq
      exact lt_irrefl _ hlt
    · have hle := List.pairwise_iff_get.mp
        (List.sorted_insertionSort TM.concertLE st.1) ⟨j, hj⟩ ⟨i, hi⟩ hlt2
      exact absurd hlt (not_lt.mpr hle)

/-- Witness for C6 on the concrete one-artist run: the accumulated list
is the two normalized events in discovery order and the output is its
stable sort. -/
theorem C6_witness :
    TM.find_concerts_for_artists TM.exM TM.exF [⟨"X", none⟩] 25 =
      .ok (([⟨TM.normalizeEvent TM.exE1, ⟨"X", none⟩⟩,
        ⟨TM.normalizeEvent TM.exE2, ⟨"X", none⟩⟩] : List TM.OutConcert).insertionSort
          TM.concertLE) :=
  (C6_stable_sort TM.exM TM.exF [⟨"X", none⟩] 25
    ([⟨TM.normalizeEvent TM.exE1, ⟨"X", none⟩⟩,
      ⟨TM.normalizeEvent TM.exE2, ⟨"X", none⟩⟩], ["E2", "E1"]) (by decide)).1

/-- C1 counterexample: a concrete run whose fetched batch holds one event
with parseable local date "2024-07-04" and one event with no local date.
The dateless event is emitted with `raw_date = ""` — a string that is
neither parseable as "YYYY-MM-DD" nor the sentinel "9999-99-99" — and it
sorts FIRST, before the event with the parseable date, not last. -/
theorem C1_counterexample :
    TM.find_concerts_for_artists TM.exM TM.exF [⟨"X", none⟩] 25 =
      .ok [⟨TM.normalizeEvent TM.exE2, ⟨"X", none⟩⟩,
        ⟨TM.normalizeEvent TM.exE1, ⟨"X", none⟩⟩] ∧
    (TM.normalizeEvent TM.exE2).raw_date = "" ∧
    PyDate.strptimeYMD (TM.normalizeEvent TM.exE2).raw_date = none ∧
    (TM.normalizeEvent TM.exE2).raw_date ≠ "9999-99-99" ∧
    PyDate.strptimeYMD (TM.normalizeEvent TM.exE1).raw_date = some (2024, 7, 4) :=
  ⟨by decide, by decide, by decide, by decide, by decide⟩

/-- C1 amended: every emitted concert's `raw_date` is the catalog's
`localDate` string verbatim — `""` when the date is absent, never
rewritten to the sentinel "9999-99-99" (the sentinel is only the sort-key
default for a record missing the `raw_date` key, which never occurs) —
and in the sorted output events with empty `raw_date` appear before, not
after, all events with nonempty (in particular parseable) dates. -/
theorem C1_amended (m : TM.MatchOracle) (f : TM.FetchOracle) :
    (∀ (resp : Option (List TM.RawEvent)) (c : TM.Concert),
      c ∈ TM.search_concerts_by_attraction resp →
      ∃ e ∈ resp.getD [], c.raw_date = e.localDate.getD "") ∧
    (∀ (artists : List TM.ArtistIn) (cap : Nat) (l : List TM.OutConcert),
      TM.find_concerts_for_artists m f artists cap = .ok l →
      ∀ (i j : Nat) (hi : i < l.length) (hj : j < l.length), i < j →
        (l.get ⟨j, hj⟩).base.raw_date = "" →
        (l.get ⟨i, hi⟩).base.raw_date = "") := by
  constructor
  · intro resp c hc
    cases resp with
    | none => cases hc
    | some evs =>
      obtain ⟨e, he, rfl⟩ := List.mem_map.mp hc
      exact ⟨e, he, rfl⟩
  · intro artists cap l hrun i j hi hj hij hj0
    unfold TM.find_concerts_for_artists at hrun
    cases hg : TM.goArtists m f (artists.take cap) ([], []) with
    | error e =>
      rw [hg] at hrun
      cases hrun
    | ok st =>
      rw [hg] at hrun
      have hl : Except.ok (ε := TM.ReqError) (st.1.insertionSort TM.concertLE) =
          Except.ok l := hrun
      have hl' : st.1.insertionSort TM.concertLE = l := by
        injection hl
      subst hl'
      have hpw := List.sorted_insertionSort TM.concertLE st.1
      have hle := List.pairwise_iff_get.mp hpw ⟨i, hi⟩ ⟨j, hj⟩ hij
      have hle' : ((st.1.insertionSort TM.concertLE).get ⟨i, hi⟩).base.raw_date ≤ "" := by
        rw [← hj0]
        exact hle
      exact le_antisymm hle' (by
        rw [String.le_iff_toList_le]
        exact List.nil_le)

namespace TM

/-- Another concrete decoded event without a local date. -/
def exE3 : RawEvent := ⟨"E3", "N3", none, none, none, [], none⟩

/-- Fetch oracle returning two dateless events. -/
def exF2 : FetchOracle := fun _ => .ok (search_concerts_by_attraction (some [exE2, exE3]))

end TM

namespace TM

/-- The event ids of an output list. -/
def outIds (l : List OutConcert) : List String := l.map (fun o => o.base.id)

/-- Whether one artist's calls, as the loop makes them, produce an event
with the given id: the attraction lookup succeeds with a truthy id, the
event fetch succeeds, and the fetched batch contains the id. -/
def contributesB (m : MatchOracle) (f : FetchOracle) (a : ArtistIn) (eid : String) : Bool :=
  match m a.name with
  | .ok (some aid) =>
    if aid = "" then false
    else
      match f aid with
      | .ok cs => decide (eid ∈ cs.map Concert.id)
      | .error _ => false
  | _ => false

theorem contributesB_of_body_error (m : MatchOracle) (f : FetchOracle)
    (a : ArtistIn) (e : ReqError) (h : processArtistBody m f a = .error e)
    (eid : String) : contributesB m f a eid = false := by
  unfold processArtistBody at h
  unfold contributesB
  cases hm : m a.name with
  | error e' => rfl
  | ok oa =>
    rw [hm] at h
    cases oa with
    | none => cases h
    | some aid =>
      replace h : (if aid = "" then Except.ok none
        else match f aid with
          | Except.error e => Except.error e
          | Except.ok concerts => Except.ok (some concerts)) =
        Except.error (α := Option (List Concert)) e := h
      show (if aid = "" then false
        else match f aid with
          | Except.ok cs => decide (eid ∈ cs.map Concert.id)
          | Except.error a' => false) = false
      by_cases haid : aid = ""
      · rw [if_pos haid] at h
        cases h
      · rw [if_neg haid] at h
        rw [if_neg haid]
        cases hf : f aid with
        | error e' => rfl
        | ok cs =>
          rw [hf] at h
          cases h

theorem contributesB_of_body_none (m : MatchOracle) (f : FetchOracle)
    (a : ArtistIn) (h : processArtistBody m f a = .ok none)
    (eid : String) : contributesB m f a eid = false := by
  unfold processArtistBody at h
  unfold contributesB
  cases hm : m a.name with
  | error e' => rfl
  | ok oa =>
    rw [hm] at h
    cases oa with
    | none => rfl
    | some aid =>
      replace h : (if aid = "" then Except.ok none
        else match f aid with
          | Except.error e => Except.error e
          | Except.ok concerts => Except.ok (some concerts)) =
        Except.ok (ε := ReqError) (none : Option (List Concert)) := h
      show (if aid = "" then false
        else match f aid with
          | Except.ok cs => decide (eid ∈ cs.map Concert.id)
          | Except.error a' => false) = false
      by_cases haid : aid = ""
      · rw [if_pos haid]
      · rw [if_neg haid] at h
        rw [if_neg haid]
        cases hf : f aid with
        | error e' => rfl
        | ok cs =>
          rw [hf] at h
          cases h

theorem contributesB_of_body_some (m : MatchOracle) (f : FetchOracle)
    (a : ArtistIn) (cs : List Concert)
    (h : processArtistBody m f a = .ok (some cs)) (eid : String) :
    contributesB m f a eid = decide (eid ∈ cs.map Concert.id) := by
  unfold processArtistBody at h
  unfold contributesB
  cases hm : m a.name with
  | error e' =>
    rw [hm] at h
    cases h
  | ok oa =>
    rw [hm] at h
    cases oa with
    | none => cases h
    | some aid =>
      replace h : (if aid = "" then Except.ok none
        else match f aid with
          | Except.error e => Except.error e
          | Except.ok concerts => Except.ok (some concerts)) =
        Except.ok (ε := ReqError) (some cs) := h
      show (if aid = "" then false
        else match f aid with
          | Except.ok cs => decide (eid ∈ cs.map Concert.id)
          | Except.error a' => false) = decide (eid ∈ cs.map Concert.id)
      by_cases haid : aid = ""
      · rw [if_pos haid] at h
        cases h
      · rw [if_neg haid] at h
        rw [if_neg haid]
        cases hf : f aid with
        | error e' =>
          rw [hf] at h
          cases h
        | ok cs' =>
          rw [hf] at h
          have h2 : some cs' = some cs := by injection h
          have h3 : cs' = cs := by injection h2
          rw [h3]

theorem addConcerts_seen (tag : ArtistTag) :
    ∀ (cs : List Concert) (st : List OutConcert × List String) (x : String),
      x ∈ (addConcerts tag st cs).2 ↔ x ∈ st.2 ∨ x ∈ cs.map Concert.id
  | [], st, x => by simp [addConcerts]
  | c :: rest, st, x => by
    unfold addConcerts
    by_cases hc : c.id ∈ st.2
    · rw [if_pos hc, addConcerts_seen tag rest st x]
      simp only [List.map_cons, List.mem_cons]
      constructor
      · rintro (hx | hx)
        · exact Or.inl hx
        · exact Or.inr (Or.inr hx)
      · rintro (hx | rfl | hx)
        · exact Or.inl hx
        · exact Or.inl hc
        · exact Or.inr hx
    · rw [if_neg hc, addConcerts_seen tag rest _ x]
      simp only [List.map_cons, List.mem_cons]
      tauto

theorem addConcerts_seen_iff (tag : ArtistTag) :
    ∀ (cs : List Concert) (st : List OutConcert × List String),
      (∀ x, x ∈ st.2 ↔ x ∈ outIds st.1) →
      ∀ x, x ∈ (addConcerts tag st cs).2 ↔ x ∈ outIds (addConcerts tag st cs).1
  | [], _, h => h
  | c :: rest, st, h => by
    unfold addConcerts
    by_cases hc : c.id ∈ st.2
    · rw [if_pos hc]
      exact addConcerts_seen_iff tag rest st h
    · rw [if_neg hc]
      refine addConcerts_seen_iff tag rest _ ?_
      intro x
      simp only [outIds, List.map_append, List.map_cons, List.map_nil,
        List.mem_append, List.mem_cons, List.mem_singleton, List.not_mem_nil, or_false]
      rw [show (x ∈ st.2) = (x ∈ outIds st.1) from propext (h x)]
      simp only [outIds]
      tauto

theorem addConcerts_nodup (tag : ArtistTag) :
    ∀ (cs : List Concert) (st : List OutConcert × List String),
      (∀ x, x ∈ st.2 ↔ x ∈ outIds st.1) →
      (outIds st.1).Nodup → (outIds (addConcerts tag st cs).1).Nodup
  | [], _, _, hnd => hnd
  | c :: rest, st, h, hnd => by
    unfold addConcerts
    by_cases hc : c.id ∈ st.2
    · rw [if_pos hc]
      exact addConcerts_nodup tag rest st h hnd
    · rw [if_neg hc]
      refine addConcerts_nodup tag rest _ ?_ ?_
      · intro x
        simp only [outIds, List.map_append, List.map_cons, List.map_nil,
          List.mem_append, List.mem_cons, List.mem_singleton,
          List.not_mem_nil, or_false]
        rw [show (x ∈ st.2) = (x ∈ outIds st.1) from propext (h x)]
        simp only [outIds]
        tauto
      · have hno : c.id ∉ outIds st.1 := fun hmem => hc ((h c.id).mpr hmem)
        simp only [outIds, List.map_append, List.map_cons, List.map_nil]
        rw [List.nodup_append]
        exact ⟨hnd, List.nodup_singleton _, by
          intro x hx hx1
          simp only [List.mem_cons, List.not_mem_nil, or_false] at hx1
          subst hx1
          exact hno hx⟩

theorem addConcerts_mem (tag : ArtistTag) :
    ∀ (cs : List Concert) (st : List OutConcert × List String) (o : OutConcert),
      o ∈ (addConcerts tag st cs).1 →
      o ∈ st.1 ∨ (o.artist = tag ∧ o.base ∈ cs ∧ o.base.id ∉ st.2)
  | [], _, _, h => Or.inl h
  | c :: rest, st, o, h => by
    unfold addConcerts at h
    by_cases hc : c.id ∈ st.2
    · rw [if_pos hc] at h
      rcases addConcerts_mem tag rest st o h with h1 | ⟨h1, h2, h3⟩
      · exact Or.inl h1
      · exact Or.inr ⟨h1, List.mem_cons_of_mem c h2, h3⟩
    · rw [if_neg hc] at h
      rcases addConcerts_mem tag rest _ o h with h1 | ⟨h1, h2, h3⟩
      · rcases List.mem_append.mp h1 with h1 | h1
        · exact Or.inl h1
        · have ho : o = ⟨c, tag⟩ := by simpa using h1
          subst ho
          exact Or.inr ⟨rfl, List.mem_cons_self c rest, hc⟩
      · exact Or.inr ⟨h1, List.mem_cons_of_mem c h2,
          fun hmem => h3 (List.mem_cons_of_mem _ hmem)⟩

/-- Invariant of the sequential artist loop: starting from a state whose
seen-id set is exactly the set of accumulated ids, a successful run ends
with duplicate-free accumulated ids, the same seen/accumulated agreement,
and every accumulated event either predates the processed artists or is
attributed to the first processed artist whose calls produced its id. -/
theorem goArtists_invariant (m : MatchOracle) (f : FetchOracle) :
    ∀ (rest : List ArtistIn) (st : List OutConcert × List String),
      (∀ x, x ∈ st.2 ↔ x ∈ outIds st.1) →
      (outIds st.1).Nodup →
      ∀ (out : List OutConcert × List String),
        goArtists m f rest st = .ok out →
        (outIds out.1).Nodup ∧
        (∀ x, x ∈ out.2 ↔ x ∈ outIds out.1) ∧
        ∀ o ∈ out.1, o ∈ st.1 ∨
          (o.base.id ∉ st.2 ∧
           ∃ pre a post, rest = pre ++ a :: post ∧
             contributesB m f a o.base.id = true ∧
             o.artist = ⟨a.name, a.image_url⟩ ∧
             ∀ b ∈ pre, contributesB m f b o.base.id = false) := by
  intro rest
  induction rest with
  | nil =>
    intro st hseen hnd out hrun
    have hout : st = out := by injection hrun
    subst hout
    exact ⟨hnd, hseen, fun o ho => Or.inl ho⟩
  | cons a rest ih =>
    intro st hseen hnd out hrun
    have hrun' : (match processArtist m f st a with
        | Except.error e => Except.error e
        | Except.ok st' => goArtists m f rest st') = Except.ok out := hrun
    unfold processArtist at hrun'
    cases hb : processArtistBody m f a with
    | error e =>
      rw [hb] at hrun'
      replace hrun' :
          (match (if e = ReqError.http 429 then Except.ok st else Except.error e) with
            | Except.error e => Except.error e
            | Except.ok st' => goArtists m f rest st') = Except.ok out := hrun'
      by_cases he : e = ReqError.http 429
      · rw [if_pos he] at hrun'
        replace hrun' : goArtists m f rest st = Except.ok out := hrun'
        obtain ⟨hnd1, hseen1, hattr⟩ := ih st hseen hnd out hrun'
        refine ⟨hnd1, hseen1, fun o ho => ?_⟩
        rcases hattr o ho with h1 | ⟨h1, pre, a', post, hdec, hcon, htag, hpre⟩
        · exact Or.inl h1
        · refine Or.inr ⟨h1, a :: pre, a', post, by rw [hdec]; rfl, hcon, htag, ?_⟩
          intro b hb'
          rcases List.mem_cons.mp hb' with rfl | hb'
          · exact contributesB_of_body_error m f b e hb o.base.id
          · exact hpre b hb'
      · rw [if_neg he] at hrun'
        cases hrun'
    | ok oc =>
      rw [hb] at hrun'
      cases oc with
      | none =>
        replace hrun' : goArtists m f rest st = Except.ok out := hrun'
        obtain ⟨hnd1, hseen1, hattr⟩ := ih st hseen hnd out hrun'
        refine ⟨hnd1, hseen1, fun o ho => ?_⟩
        rcases hattr o ho with h1 | ⟨h1, pre, a', post, hdec, hcon, htag, hpre⟩
        · exact Or.inl h1
        · refine Or.inr ⟨h1, a :: pre, a', post, by rw [hdec]; rfl, hcon, htag, ?_⟩
          intro b hb'
          rcases List.mem_cons.mp hb' with rfl | hb'
          · exact contributesB_of_body_none m f b hb o.base.id
          · exact hpre b hb'
      | some cs =>
        replace hrun' : goArtists m f rest
            (addConcerts ⟨a.name, a.image_url⟩ st cs) = Except.ok out := hrun'
        have hseen1 := addConcerts_seen_iff ⟨a.name, a.image_url⟩ cs st hseen
        have hnd1 := addConcerts_nodup ⟨a.name, a.image_url⟩ cs st hseen hnd
        obtain ⟨hnd2, hseen2, hattr⟩ :=
          ih (addConcerts ⟨a.name, a.image_url⟩ st cs) hseen1 hnd1 out hrun'
        refine ⟨hnd2, hseen2, fun o ho => ?_⟩
        rcases hattr o ho with h1 | ⟨h1, pre, a', post, hdec, hcon, htag, hpre⟩
        · rcases addConcerts_mem ⟨a.name, a.image_url⟩ cs st o h1 with
            h2 | ⟨h2, h3, h4⟩
          · exact Or.inl h2
          · refine Or.inr ⟨h4, [], a, rest, rfl, ?_, h2, fun b hb' => absurd hb' (by simp)⟩
            rw [contributesB_of_body_some m f a cs hb o.base.id]
            exact decide_eq_true (List.mem_map.mpr ⟨o.base, h3, rfl⟩)
        · have hnotst : o.base.id ∉ st.2 := fun hmem =>
            h1 ((addConcerts_seen ⟨a.name, a.image_url⟩ cs st o.base.id).mpr (Or.inl hmem))
          have hnotcs : o.base.id ∉ cs.map Concert.id := fun hmem =>
            h1 ((addConcerts_seen ⟨a.name, a.image_url⟩ cs st o.base.id).mpr (Or.inr hmem))
          refine Or.inr ⟨hnotst, a :: pre, a', post, by rw [hdec]; rfl, hcon, htag, ?_⟩
          intro b hb'
          rcases List.mem_cons.mp hb' with rfl | hb'
          · rw [contributesB_of_body_some m f b cs hb o.base.id]
            exact decide_eq_false hnotcs
          · exact hpre b hb'

end TM

/-- C5: on every successful resolution run the final list has no two
events with the same id, even when different artists' searches return the
same event id; each output event is attributed — name and image_url — to
the first artist, in ranked order within the cap, whose calls produced its
id, and no earlier artist produced that id. -/
theorem C5_dedup_first_artist (m : TM.MatchOracle) (f : TM.FetchOracle)
    (artists : List TM.ArtistIn) (cap : Nat) (l : List TM.OutConcert)
    (hrun : TM.find_concerts_for_artists m f artists cap = .ok l) :
    (TM.outIds l).Nodup ∧
    ∀ o ∈ l, ∃ pre a post, artists.take cap = pre ++ a :: post ∧
      TM.contributesB m f a o.base.id = true ∧
      o.artist = ⟨a.name, a.image_url⟩ ∧
      ∀ b ∈ pre, TM.contributesB m f b o.base.id = false := by
  unfold TM.find_concerts_for_artists at hrun
  cases hg : TM.goArtists m f (artists.take cap) ([], []) with
  | error e =>
    rw [hg] at hrun
    cases hrun
  | ok st =>
    rw [hg] at hrun
    have hl : Except.ok (ε := TM.ReqError) (st.1.insertionSort TM.concertLE) =
        Except.ok l := hrun
    have hl' : st.1.insertionSort TM.concertLE = l := by injection hl
    obtain ⟨hnd, -, hattr⟩ := TM.goArtists_invariant m f (artists.take cap) ([], [])
      (by simp [TM.outIds]) (by simp [TM.outIds]) st hg
    constructor
    · have hperm : (TM.outIds l).Perm (TM.outIds st.1) := by
        rw [← hl']
        exact (List.perm_insertionSort TM.concertLE st.1).map _
      exact hperm.nodup_iff.mpr hnd
    · intro o ho
      have ho' : o ∈ st.1 := by
        rw [← hl'] at ho
        exact (List.mem_insertionSort TM.concertLE).mp ho
      rcases hattr o ho' with h1 | ⟨-, pre, a, post, hdec, hcon, htag, hpre⟩
      · cases h1
      · exact ⟨pre, a, post, hdec, hcon, htag, hpre⟩

/-- Concrete data for C5's witness: two artists whose searches both return
the same event. -/
def exM2 : TM.MatchOracle := fun n =>
  if n = "X" then .ok (some "AX") else if n = "Y" then .ok (some "AY") else .ok none

/-- Fetch oracle returning the same single event for every attraction. -/
def exF3 : TM.FetchOracle := fun _ =>
  .ok (TM.search_concerts_by_attraction (some [TM.exE1]))

/-- Witness for C5: both artists X and Y produce event E1; the output
lists it once, attributed to X, the first artist that produced it. -/
theorem C5_witness :
    (TM.outIds [⟨TM.normalizeEvent TM.exE1, ⟨"X", none⟩⟩]).Nodup ∧
    ∀ o ∈ ([⟨TM.normalizeEvent TM.exE1, ⟨"X", none⟩⟩] : List TM.OutConcert),
      ∃ pre a post,
        ([⟨"X", none⟩, ⟨"Y", none⟩] : List TM.ArtistIn).take 25 = pre ++ a :: post ∧
        TM.contributesB exM2 exF3 a o.base.id = true ∧
        o.artist = ⟨a.name, a.image_url⟩ ∧
        ∀ b ∈ pre, TM.contributesB exM2 exF3 b o.base.id = false :=
  C5_dedup_first_artist exM2 exF3 [⟨"X", none⟩, ⟨"Y", none⟩] 25
    [⟨TM.normalizeEvent TM.exE1, ⟨"X", none⟩⟩] (by decide)

/-- Witness for C1's amended statement at concrete inputs: the dateless
event's `raw_date` is its `localDate` default `""`, and in a run whose
output has an empty `raw_date` at position 1, position 0 is empty too. -/
theorem C1_amended_witness :
    (∃ e ∈ (some [TM.exE2] : Option (List TM.RawEvent)).getD [],
      (TM.normalizeEvent TM.exE2).raw_date = e.localDate.getD "") ∧
    (([⟨TM.normalizeEvent TM.exE2, ⟨"X", none⟩⟩,
        ⟨TM.normalizeEvent TM.exE3, ⟨"X", none⟩⟩] : List TM.OutConcert).get
      ⟨0, by decide⟩).base.raw_date = "" :=
  ⟨(C1_amended TM.exM TM.exF2).1 (some [TM.exE2]) (TM.normalizeEvent TM.exE2)
    (by decide),
   (C1_amended TM.exM TM.exF2).2 [⟨"X", none⟩] 25
    [⟨TM.normalizeEvent TM.exE2, ⟨"X", none⟩⟩,
      ⟨TM.normalizeEvent TM.exE3, ⟨"X", none⟩⟩]
    (by decide) 0 1 (by decide) (by decide) (by decide) (by decide)⟩

namespace Spotify

/-- id field of an artist record. -/
def artistId (d : ArtistDict) : String := getStr d "id"

/-- The artist dicts the aggregation loop processes, in processing order:
the three windows' normalized lists, short then medium then long. -/
def allWindows (short medium long : List RawItem) : List ArtistDict :=
  get_top_artists short ++ get_top_artists medium ++ get_top_artists long

/-- The ids the aggregation loop processes, in processing order. -/
def allIds (short medium long : List RawItem) : List String :=
  (allWindows short medium long).map artistId

/-- Total number of occurrences of an id across the three windows: the
value `artist_counts` ends up holding for that id. -/
def appearCount (short medium long : List RawItem) (k : String) : Nat :=
  (allIds short medium long).count k

/-- Insertion order of dict keys: the keys of a dict built by repeated
`dinsert`, starting from the keys of the initial dict. -/
def insKeys (acc ids : List String) : List String :=
  ids.foldl (fun acc k => if k ∈ acc then acc else acc ++ [k]) acc

theorem dinsert_lookup_self {β : Type} (k : String) (v : β) :
    ∀ d : List (String × β), (dinsert k v d).lookup k = some v
  | [] => by simp [dinsert, List.lookup]
  | (k', v') :: t => by
    unfold dinsert
    by_cases h : k' = k
    · rw [if_pos h]
      simp [List.lookup]
    · rw [if_neg h]
      rw [List.lookup_cons]
      have : (k == k') = false := by
        simp only [beq_eq_false_iff_ne, ne_eq]
        exact fun hk => h hk.symm
      rw [this]
      exact dinsert_lookup_self k v t

theorem dinsert_lookup_ne {β : Type} (k : String) (v : β) (x : String) (hx : x ≠ k) :
    ∀ d : List (String × β), (dinsert k v d).lookup x = d.lookup x
  | [] => by
    simp only [dinsert, List.lookup_cons, List.lookup_nil]
    have : (x == k) = false := by simpa using hx
    rw [this]
  | (k', v') :: t => by
    unfold dinsert
    by_cases h : k' = k
    · subst h
      rw [if_pos rfl, List.lookup_cons, List.lookup_cons]
      have hbeq : (x == k') = false := by simpa using hx
      rw [hbeq]
    · rw [if_neg h]
      rw [List.lookup_cons, List.lookup_cons]
      cases hxk : x == k' with
      | true => rfl
      | false => exact dinsert_lookup_ne k v x hx t

theorem dinsert_keys {β : Type} (k : String) (v : β) :
    ∀ d : List (String × β), (dinsert k v d).map Prod.fst =
      if k ∈ d.map Prod.fst then d.map Prod.fst else d.map Prod.fst ++ [k]
  | [] => by simp [dinsert]
  | (k', v') :: t => by
    unfold dinsert
    by_cases h : k' = k
    · subst h
      simp
    · rw [if_neg h]
      simp only [List.map_cons, List.mem_cons]
      rw [dinsert_keys k v t]
      by_cases hm : k ∈ t.map Prod.fst
      · rw [if_pos hm, if_pos (Or.inr hm)]
      · rw [if_neg hm, if_neg (by
          rintro (hk | hk)
          · exact h hk.symm
          · exact hm hk)]
        simp

theorem lookup_isSome_of_mem_keys {β : Type} :
    ∀ (d : List (String × β)) (k : String), k ∈ d.map Prod.fst →
      ∃ v, d.lookup k = some v
  | [], k, h => by simp at h
  | (k', v') :: t, k, h => by
    rw [List.lookup_cons]
    by_cases hk : k = k'
    · subst hk
      simp
    · have : (k == k') = false := by simpa using hk
      rw [this]
      refine lookup_isSome_of_mem_keys t k ?_
      simp only [List.map_cons, List.mem_cons] at h
      exact h.resolve_left hk

theorem tally_counts :
    ∀ (l : List ArtistDict) (st : List (String × Nat) × List (String × ArtistDict))
      (k : String),
      ((l.foldl tally st).1.lookup k).getD 0 =
        (st.1.lookup k).getD 0 + (l.map artistId).count k
  | [], st, k => by simp
  | a :: t, st, k => by
    rw [List.foldl_cons, tally_counts t (tally st a) k]
    show ((dinsert (getStr a "id") ((st.1.lookup (getStr a "id")).getD 0 + 1)
        st.1).lookup k).getD 0 + _ = _
    by_cases hk : getStr a "id" = k
    · subst hk
      rw [dinsert_lookup_self]
      simp only [Option.getD_some, List.map_cons, List.count_cons, artistId]
      simp
      try omega
    · rw [dinsert_lookup_ne _ _ k (fun h => hk h.symm)]
      simp only [List.map_cons, List.count_cons, artistId]
      have : (artistId a == k) = false := by simpa [artistId] using hk
      simp only [artistId] at this
      rw [this]
      simp
      try omega

theorem tally_keys :
    ∀ (l : List ArtistDict) (st : List (String × Nat) × List (String × ArtistDict)),
      (l.foldl tally st).1.map Prod.fst = insKeys (st.1.map Prod.fst) (l.map artistId)
  | [], st => rfl
  | a :: t, st => by
    rw [List.foldl_cons, tally_keys t (tally st a)]
    show insKeys ((dinsert (getStr a "id") _ st.1).map Prod.fst) _ = _
    rw [dinsert_keys]
    rfl

theorem tally_keys_sync :
    ∀ (l : List ArtistDict) (st : List (String × Nat) × List (String × ArtistDict)),
      st.1.map Prod.fst = st.2.map Prod.fst →
      (l.foldl tally st).1.map Prod.fst = (l.foldl tally st).2.map Prod.fst
  | [], st, h => h
  | a :: t, st, h => by
    rw [List.foldl_cons]
    refine tally_keys_sync t (tally st a) ?_
    show (dinsert (getStr a "id") _ st.1).map Prod.fst =
      (dinsert (getStr a "id") _ st.2).map Prod.fst
    rw [dinsert_keys, dinsert_keys, h]

theorem tally_data_id :
    ∀ (l : List ArtistDict) (st : List (String × Nat) × List (String × ArtistDict)),
      (∀ k d, st.2.lookup k = some d → artistId d = k) →
      ∀ k d, (l.foldl tally st).2.lookup k = some d → artistId d = k
  | [], st, h => h
  | a :: t, st, h => by
    rw [List.foldl_cons]
    refine tally_data_id t (tally st a) ?_
    intro k d hkd
    replace hkd : (dinsert (getStr a "id") a st.2).lookup k = some d := hkd
    by_cases hk : getStr a "id" = k
    · subst hk
      rw [dinsert_lookup_self] at hkd
      have : a = d := by injection hkd
      subst this
      rfl
    · rw [dinsert_lookup_ne _ _ k (fun h' => hk h'.symm)] at hkd
      exact h k d hkd

theorem tally_data_mem :
    ∀ (l : List ArtistDict) (st : List (String × Nat) × List (String × ArtistDict))
      (Q : ArtistDict → Prop),
      (∀ k d, st.2.lookup k = some d → Q d) → (∀ a ∈ l, Q a) →
      ∀ k d, (l.foldl tally st).2.lookup k = some d → Q d
  | [], st, Q, h, hl => h
  | a :: t, st, Q, h, hl => by
    rw [List.foldl_cons]
    refine tally_data_mem t (tally st a) Q ?_ (fun b hb => hl b (List.mem_cons_of_mem a hb))
    intro k d hkd
    replace hkd : (dinsert (getStr a "id") a st.2).lookup k = some d := hkd
    by_cases hk : getStr a "id" = k
    · subst hk
      rw [dinsert_lookup_self] at hkd
      have : a = d := by injection hkd
      subst this
      exact hl a (List.mem_cons_self a t)
    · rw [dinsert_lookup_ne _ _ k (fun h' => hk h'.symm)] at hkd
      exact h k d hkd

theorem insKeys_mem :
    ∀ (ids acc : List String) (x : String),
      x ∈ insKeys acc ids ↔ x ∈ acc ∨ x ∈ ids
  | [], acc, x => by simp [insKeys]
  | k :: t, acc, x => by
    show x ∈ insKeys (if k ∈ acc then acc else acc ++ [k]) t ↔ _
    rw [insKeys_mem t _ x]
    by_cases hk : k ∈ acc
    · rw [if_pos hk]
      simp only [List.mem_cons]
      constructor
      · rintro (hx | hx)
        · exact Or.inl hx
        · exact Or.inr (Or.inr hx)
      · rintro (hx | rfl | hx)
        · exact Or.inl hx
        · exact Or.inl hk
        · exact Or.inr hx
    · rw [if_neg hk]
      simp only [List.mem_append, List.mem_singleton, List.mem_cons]
      tauto

theorem insKeys_nodup :
    ∀ (ids acc : List String), acc.Nodup → (insKeys acc ids).Nodup
  | [], acc, h => h
  | k :: t, acc, h => by
    show (insKeys (if k ∈ acc then acc else acc ++ [k]) t).Nodup
    by_cases hk : k ∈ acc
    · rw [if_pos hk]
      exact insKeys_nodup t acc h
    · rw [if_neg hk]
      refine insKeys_nodup t _ ?_
      rw [List.nodup_append]
      exact ⟨h, List.nodup_singleton k, by
        intro x hx hx1
        simp only [List.mem_singleton] at hx1
        subst hx1
        exact hk hx⟩

end Spotify

theorem pair_sublist_of_get {α : Type} :
    ∀ (l : List α) (i j : Nat) (hi : i < l.length) (hj : j < l.length), i < j →
      List.Sublist [l.get ⟨i, hi⟩, l.get ⟨j, hj⟩] l
  | [], i, j, hi, _, _ => absurd hi (by simp)
  | x :: t, 0, 0, _, _, hij => absurd hij (lt_irrefl 0)
  | x :: t, i + 1, 0, _, _, hij => absurd hij (by omega)
  | x :: t, 0, j + 1, hi, hj, hij => by
    show List.Sublist [x, t.get ⟨j, Nat.lt_of_succ_lt_succ hj⟩] (x :: t)
    refine List.Sublist.cons₂ x ?_
    rw [List.singleton_sublist]
    exact t.get_mem _ _
  | x :: t, i + 1, j + 1, hi, hj, hij => by
    show List.Sublist [t.get ⟨i, Nat.lt_of_succ_lt_succ hi⟩,
      t.get ⟨j, Nat.lt_of_succ_lt_succ hj⟩] (x :: t)
    exact List.Sublist.cons x (pair_sublist_of_get t i j _ _ (by omega))

theorem pair_sublist_of_mem_ne {α : Type} :
    ∀ (l : List α), l.Nodup → ∀ a b, a ∈ l → b ∈ l → a ≠ b →
      List.Sublist [a, b] l ∨ List.Sublist [b, a] l
  | [], _, a, _, ha, _, _ => absurd ha (List.not_mem_nil a)
  | x :: t, hnd, a, b, ha, hb, hab => by
    rw [List.nodup_cons] at hnd
    rcases List.mem_cons.mp ha with rfl | ha'
    · have hb' : b ∈ t := (List.mem_cons.mp hb).resolve_left (fun h => hab h.symm)
      exact Or.inl (List.Sublist.cons₂ a (List.singleton_sublist.mpr hb'))
    · rcases List.mem_cons.mp hb with rfl | hb'
      · exact Or.inr (List.Sublist.cons₂ b (List.singleton_sublist.mpr ha'))
      · rcases pair_sublist_of_mem_ne t hnd.2 a b ha' hb' hab with h | h
        · exact Or.inl (List.Sublist.cons x h)
        · exact Or.inr (List.Sublist.cons x h)

theorem indexOf_lt_of_pair_sublist {α : Type} [DecidableEq α] :
    ∀ (l : List α), l.Nodup → ∀ a b, List.Sublist [a, b] l →
      l.indexOf a < l.indexOf b
  | [], _, a, b, h => absurd h (by simp)
  | x :: t, hnd, a, b, h => by
    rw [List.nodup_cons] at hnd
    cases h with
    | cons _ h' =>
      have ha : a ∈ t := h'.subset (by simp)
      have hb : b ∈ t := h'.subset (by simp)
      have hxa : x ≠ a := fun hh => hnd.1 (hh ▸ ha)
      have hxb : x ≠ b := fun hh => hnd.1 (hh ▸ hb)
      rw [List.indexOf_cons_ne t hxa, List.indexOf_cons_ne t hxb]
      exact Nat.succ_lt_succ (indexOf_lt_of_pair_sublist t hnd.2 a b h')
    | cons₂ _ h' =>
      have hb : b ∈ t := List.singleton_sublist.mp h'
      have hxb : x ≠ b := fun hh => hnd.1 (hh ▸ hb)
      rw [List.indexOf_cons_self, List.indexOf_cons_ne t hxb]
      exact Nat.succ_pos _

theorem pair_sublist_snoc {α : Type} :
    ∀ (xs : List α) (a b k : α), List.Sublist [a, b] (xs ++ [k]) →
      List.Sublist [a, b] xs ∨ (a ∈ xs ∧ b = k)
  | [], a, b, k, h => by
    exfalso
    have hlen := h.length_le
    simp at hlen
  | x :: xs, a, b, k, h => by
    cases h with
    | cons _ h' =>
      rcases pair_sublist_snoc xs a b k h' with h2 | ⟨h2, hbk⟩
      · exact Or.inl (List.Sublist.cons x h2)
      · exact Or.inr ⟨List.mem_cons_of_mem x h2, hbk⟩
    | cons₂ _ h' =>
      have hb := List.singleton_sublist.mp h'
      rcases List.mem_append.mp hb with hb' | hb'
      · exact Or.inl (List.Sublist.cons₂ _ (List.singleton_sublist.mpr hb'))
      · have hbk : b = k := by simpa using hb'
        exact Or.inr ⟨List.mem_cons_self _ _, hbk⟩

namespace Spotify

theorem insKeys_sublist_order :
    ∀ (ids : List String) (a b : String), List.Sublist [a, b] (insKeys [] ids) →
      ids.indexOf a < ids.indexOf b := by
  intro ids
  induction ids using List.reverseRecOn with
  | nil =>
    intro a b h
    have hlen := h.length_le
    simp [insKeys] at hlen
  | append_singleton ids k ih =>
    intro a b h
    have hsnoc : insKeys [] (ids ++ [k]) =
        if k ∈ insKeys [] ids then insKeys [] ids else insKeys [] ids ++ [k] := by
      simp [insKeys, List.foldl_append]
    rw [hsnoc] at h
    by_cases hk : k ∈ insKeys [] ids
    · rw [if_pos hk] at h
      have ha : a ∈ ids := by
        have hmem : a ∈ insKeys [] ids := h.subset (by simp)
        rcases (insKeys_mem ids [] a).mp hmem with h' | h'
        · simp at h'
        · exact h'
      have hb : b ∈ ids := by
        have hmem : b ∈ insKeys [] ids := h.subset (by simp)
        rcases (insKeys_mem ids [] b).mp hmem with h' | h'
        · simp at h'
        · exact h'
      rw [List.indexOf_append_of_mem ha, List.indexOf_append_of_mem hb]
      exact ih a b h
    · rw [if_neg hk] at h
      rcases pair_sublist_snoc _ a b k h with h2 | ⟨h2, hbk⟩
      · have ha : a ∈ ids := by
          have hmem : a ∈ insKeys [] ids := h2.subset (by simp)
          rcases (insKeys_mem ids [] a).mp hmem with h' | h'
          · simp at h'
          · exact h'
        have hb : b ∈ ids := by
          have hmem : b ∈ insKeys [] ids := h2.subset (by simp)
          rcases (insKeys_mem ids [] b).mp hmem with h' | h'
          · simp at h'
          · exact h'
        rw [List.indexOf_append_of_mem ha, List.indexOf_append_of_mem hb]
        exact ih a b h2
      · subst hbk
        have ha : a ∈ ids := by
          rcases (insKeys_mem ids [] a).mp h2 with h' | h'
          · simp at h'
          · exact h'
        have hknot : b ∉ ids := fun hm => hk ((insKeys_mem ids [] b).mpr (Or.inr hm))
        rw [List.indexOf_append_of_mem ha, List.indexOf_append_of_not_mem hknot]
        have halt : ids.indexOf a < ids.length := List.indexOf_lt_length.mpr ha
        simp only [List.indexOf_cons_self]
        omega

end Spotify

namespace Spotify

instance (c : List (String × Nat)) : IsTotal String (countGE c) :=
  ⟨fun a b => le_total ((c.lookup b).getD 0) ((c.lookup a).getD 0)⟩

instance (c : List (String × Nat)) : IsTrans String (countGE c) :=
  ⟨fun _ _ _ hab hbc => le_trans hbc hab⟩

theorem getStr_mkArtist_id (it : RawItem) : getStr (mkArtist it) "id" = it.id := by
  have hbeq : ("id" == "id") = true := by decide
  simp [getStr, mkArtist, List.lookup_cons, hbeq]

theorem artistId_mkArtist (it : RawItem) : artistId (mkArtist it) = it.id :=
  getStr_mkArtist_id it

theorem mkArtist_keys (it : RawItem) :
    (mkArtist it).map Prod.fst = ["id", "name", "image_url", "genres"] := rfl

theorem mkArtist_lookup_appearance (it : RawItem) :
    (mkArtist it).lookup "appearance_count" = none := by
  have h1 : ("appearance_count" == "id") = false := by decide
  have h2 : ("appearance_count" == "name") = false := by decide
  have h3 : ("appearance_count" == "image_url") = false := by decide
  have h4 : ("appearance_count" == "genres") = false := by decide
  simp [mkArtist, List.lookup_cons, h1, h2, h3, h4]

/-- The artist_counts dict after the windows loop. -/
def aggCounts (short medium long : List RawItem) : List (String × Nat) :=
  ((allWindows short medium long).foldl tally ([], [])).1

/-- The artist_data dict after the windows loop. -/
def aggData (short medium long : List RawItem) : List (String × ArtistDict) :=
  ((allWindows short medium long).foldl tally ([], [])).2

/-- The sorted_ids list computed by get_all_top_artists. -/
def sortedIds (short medium long : List RawItem) : List String :=
  ((aggCounts short medium long).map Prod.fst).insertionSort
    (countGE (aggCounts short medium long))

theorem fold_three (st0 : List (String × Nat) × List (String × ArtistDict))
    (w1 w2 w3 : List ArtistDict) :
    (w1 ++ w2 ++ w3).foldl tally st0 =
      w3.foldl tally (w2.foldl tally (w1.foldl tally st0)) := by
  rw [List.foldl_append, List.foldl_append]

theorem get_all_top_artists_eq (s m l : List RawItem) :
    get_all_top_artists s m l =
      (sortedIds s m l).map (fun aid => ((aggData s m l).lookup aid).getD []) := by
  show ((([get_top_artists s, get_top_artists m, get_top_artists l].foldl
      (fun st w => w.foldl tally st) ([], [])).1.map Prod.fst).insertionSort
      (countGE ([get_top_artists s, get_top_artists m, get_top_artists l].foldl
        (fun st w => w.foldl tally st) ([], [])).1)).map
      (fun aid => (([get_top_artists s, get_top_artists m, get_top_artists l].foldl
        (fun st w => w.foldl tally st) ([], [])).2.lookup aid).getD []) = _
  rw [show [get_top_artists s, get_top_artists m, get_top_artists l].foldl
      (fun st w => w.foldl tally st) ([], []) =
      (allWindows s m l).foldl tally ([], []) from (fold_three _ _ _ _).symm]
  rfl

theorem aggCounts_keys (s m l : List RawItem) :
    (aggCounts s m l).map Prod.fst = insKeys [] (allIds s m l) := by
  unfold aggCounts allIds
  exact tally_keys (allWindows s m l) ([], [])

theorem aggCounts_lookup (s m l : List RawItem) (k : String) :
    ((aggCounts s m l).lookup k).getD 0 = appearCount s m l k := by
  unfold aggCounts appearCount allIds
  rw [tally_counts (allWindows s m l) ([], []) k]
  simp

theorem sortedIds_nodup (s m l : List RawItem) : (sortedIds s m l).Nodup := by
  refine (List.perm_insertionSort _ _).nodup_iff.mpr ?_
  rw [aggCounts_keys]
  exact insKeys_nodup _ [] List.nodup_nil

theorem sortedIds_mem (s m l : List RawItem) (k : String) :
    k ∈ sortedIds s m l ↔ k ∈ allIds s m l := by
  unfold sortedIds
  rw [List.mem_insertionSort, aggCounts_keys, insKeys_mem]
  simp

theorem aggData_lookup_of_mem (s m l : List RawItem) (k : String)
    (hk : k ∈ sortedIds s m l) :
    ∃ d, (aggData s m l).lookup k = some d ∧ artistId d = k := by
  have hkeys : k ∈ (aggData s m l).map Prod.fst := by
    have hsync : (aggCounts s m l).map Prod.fst = (aggData s m l).map Prod.fst :=
      tally_keys_sync (allWindows s m l) ([], []) rfl
    rw [← hsync, aggCounts_keys, insKeys_mem]
    exact Or.inr ((sortedIds_mem s m l k).mp hk)
  obtain ⟨d, hd⟩ := lookup_isSome_of_mem_keys (aggData s m l) k hkeys
  refine ⟨d, hd, ?_⟩
  exact tally_data_id (allWindows s m l) ([], []) (by intro k' d' h'; cases h') k d hd

theorem get_all_map_artistId (s m l : List RawItem) :
    (get_all_top_artists s m l).map artistId = sortedIds s m l := by
  rw [get_all_top_artists_eq, List.map_map]
  have hpt : ∀ k ∈ sortedIds s m l,
      (artistId ∘ fun aid => ((aggData s m l).lookup aid).getD []) k = id k := by
    intro k hk
    obtain ⟨d, hd, hid⟩ := aggData_lookup_of_mem s m l k hk
    simp only [Function.comp_apply, hd, Option.getD_some, id]
    exact hid
  rw [List.map_congr_left hpt, List.map_id]

theorem mem_get_all (s m l : List RawItem) (d : ArtistDict)
    (hd : d ∈ get_all_top_artists s m l) :
    ∃ k ∈ sortedIds s m l, (aggData s m l).lookup k = some d ∧ artistId d = k := by
  rw [get_all_top_artists_eq] at hd
  obtain ⟨k, hk, hkd⟩ := List.mem_map.mp hd
  obtain ⟨d', hd', hid⟩ := aggData_lookup_of_mem s m l k hk
  rw [hd', Option.getD_some] at hkd
  subst hkd
  exact ⟨k, hk, hd', hid⟩

end Spotify

namespace Spotify

theorem window_ids (w : List RawItem) :
    (get_top_artists w).map artistId = w.map RawItem.id := by
  unfold get_top_artists
  rw [List.map_map]
  exact List.map_congr_left (fun it _ => artistId_mkArtist it)

theorem allIds_eq (s m l : List RawItem) :
    allIds s m l =
      s.map RawItem.id ++ m.map RawItem.id ++ l.map RawItem.id := by
  unfold allIds allWindows
  rw [List.map_append, List.map_append, window_ids, window_ids, window_ids]

theorem appearCount_windows (s m l : List RawItem)
    (hs : (s.map RawItem.id).Nodup) (hm : (m.map RawItem.id).Nodup)
    (hl : (l.map RawItem.id).Nodup) (k : String) :
    appearCount s m l k =
      (if k ∈ s.map RawItem.id then 1 else 0) +
      (if k ∈ m.map RawItem.id then 1 else 0) +
      (if k ∈ l.map RawItem.id then 1 else 0) := by
  unfold appearCount
  rw [allIds_eq, List.count_append, List.count_append]
  rw [List.count_eq_of_nodup hs, List.count_eq_of_nodup hm, List.count_eq_of_nodup hl]

theorem get_all_values_no_appearance (s m l : List RawItem) :
    ∀ d ∈ get_all_top_artists s m l, d.lookup "appearance_count" = none := by
  intro d hd
  obtain ⟨k, hk, hdk, -⟩ := mem_get_all s m l d hd
  refine tally_data_mem (allWindows s m l) ([], [])
    (fun d' => d'.lookup "appearance_count" = none)
    (by intro k' d' h'; cases h') ?_ k d hdk
  intro a ha
  unfold allWindows get_top_artists at ha
  rcases List.mem_append.mp ha with ha' | ha'
  · rcases List.mem_append.mp ha' with ha'' | ha''
    · obtain ⟨it, -, rfl⟩ := List.mem_map.mp ha''
      exact mkArtist_lookup_appearance it
    · obtain ⟨it, -, rfl⟩ := List.mem_map.mp ha''
      exact mkArtist_lookup_appearance it
  · obtain ⟨it, -, rfl⟩ := List.mem_map.mp ha'
    exact mkArtist_lookup_appearance it

end Spotify

/-- C2 counterexample: a concrete aggregation run returning one artist:
the returned record is the artist dict built by get_top_artists, whose
keys are exactly id, name, image_url and genres — it carries no
appearance_count field (looking the key up yields none). -/
theorem C2_counterexample :
    Spotify.get_all_top_artists [⟨"a", "A", [], []⟩] [] [] =
      [Spotify.mkArtist ⟨"a", "A", [], []⟩] ∧
    (Spotify.mkArtist ⟨"a", "A", [], []⟩).lookup "appearance_count" = none ∧
    (Spotify.mkArtist ⟨"a", "A", [], []⟩).map Prod.fst =
      ["id", "name", "image_url", "genres"] :=
  ⟨by decide, by decide, by decide⟩

/-- C2 amended: the aggregation computes an appearance count per returned
artist id internally (in artist_counts) and uses it only as the sort key:
the returned records carry no appearance_count field; for every returned
artist the internal count — the number of occurrences of its id across
the three windows — is at least 1, and when each window's list has
duplicate-free ids it equals the number of windows (of short/medium/long)
in which that artist id appeared. -/
theorem C2_appearance_count (short medium long : List Spotify.RawItem)
    (hs : (short.map Spotify.RawItem.id).Nodup)
    (hm : (medium.map Spotify.RawItem.id).Nodup)
    (hl : (long.map Spotify.RawItem.id).Nodup) :
    ∀ d ∈ Spotify.get_all_top_artists short medium long,
      d.lookup "appearance_count" = none ∧
      1 ≤ Spotify.appearCount short medium long (Spotify.artistId d) ∧
      Spotify.appearCount short medium long (Spotify.artistId d) =
        (if Spotify.artistId d ∈ short.map Spotify.RawItem.id then 1 else 0) +
        (if Spotify.artistId d ∈ medium.map Spotify.RawItem.id then 1 else 0) +
        (if Spotify.artistId d ∈ long.map Spotify.RawItem.id then 1 else 0) := by
  intro d hd
  refine ⟨Spotify.get_all_values_no_appearance short medium long d hd, ?_, ?_⟩
  · obtain ⟨k, hk, -, hid⟩ := Spotify.mem_get_all short medium long d hd
    rw [hid]
    have hmem : k ∈ Spotify.allIds short medium long :=
      (Spotify.sortedIds_mem short medium long k).mp hk
    exact List.count_pos_iff.mpr hmem
  · exact Spotify.appearCount_windows short medium long hs hm hl _

/-- Witness for C2's amended statement at a concrete input: artist "b"
appears in the short and medium windows; its returned record has no
appearance_count key and its internal count is 2, one per window. -/
theorem C2_witness :
    (Spotify.mkArtist ⟨"b", "B", [], []⟩).lookup "appearance_count" = none ∧
    1 ≤ Spotify.appearCount [⟨"a", "A", [], []⟩, ⟨"b", "B", [], []⟩]
      [⟨"b", "B", [], []⟩] [] (Spotify.artistId (Spotify.mkArtist ⟨"b", "B", [], []⟩)) ∧
    Spotify.appearCount [⟨"a", "A", [], []⟩, ⟨"b", "B", [], []⟩]
      [⟨"b", "B", [], []⟩] [] (Spotify.artistId (Spotify.mkArtist ⟨"b", "B", [], []⟩)) =
      (if Spotify.artistId (Spotify.mkArtist ⟨"b", "B", [], []⟩) ∈
        ([⟨"a", "A", [], []⟩, ⟨"b", "B", [], []⟩] : List Spotify.RawItem).map
          Spotify.RawItem.id then 1 else 0) +
      (if Spotify.artistId (Spotify.mkArtist ⟨"b", "B", [], []⟩) ∈
        ([⟨"b", "B", [], []⟩] : List Spotify.RawItem).map Spotify.RawItem.id
        then 1 else 0) +
      (if Spotify.artistId (Spotify.mkArtist ⟨"b", "B", [], []⟩) ∈
        ([] : List Spotify.RawItem).map Spotify.RawItem.id then 1 else 0) :=
  C2_appearance_count [⟨"a", "A", [], []⟩, ⟨"b", "B", [], []⟩] [⟨"b", "B", [], []⟩] []
    (by decide) (by decide) (by decide)
    (Spotify.mkArtist ⟨"b", "B", [], []⟩) (by decide)

namespace Spotify

/-- An id that appeared in all three time windows. -/
def inAllThree (s m l : List RawItem) (k : String) : Prop :=
  k ∈ s.map RawItem.id ∧ k ∈ m.map RawItem.id ∧ k ∈ l.map RawItem.id

/-- An id that appeared in exactly one of the three time windows. -/
def inExactlyOne (s m l : List RawItem) (k : String) : Prop :=
  (k ∈ s.map RawItem.id ∧ k ∉ m.map RawItem.id ∧ k ∉ l.map RawItem.id) ∨
  (k ∉ s.map RawItem.id ∧ k ∈ m.map RawItem.id ∧ k ∉ l.map RawItem.id) ∨
  (k ∉ s.map RawItem.id ∧ k ∉ m.map RawItem.id ∧ k ∈ l.map RawItem.id)

theorem sortedIds_pairwise_counts (s m l : List RawItem) :
    List.Pairwise (fun a b => appearCount s m l b ≤ appearCount s m l a)
      (sortedIds s m l) := by
  have hpw : List.Pairwise (countGE (aggCounts s m l)) (sortedIds s m l) :=
    List.sorted_insertionSort _ _
  refine hpw.imp ?_
  intro a b h
  rw [← aggCounts_lookup s m l a, ← aggCounts_lookup s m l b]
  exact h

theorem sortedIds_ties (s m l : List RawItem) :
    List.Pairwise (fun a b => appearCount s m l a = appearCount s m l b →
      (allIds s m l).indexOf a < (allIds s m l).indexOf b) (sortedIds s m l) := by
  have hnodup := sortedIds_nodup s m l
  have hkeysNodup : ((aggCounts s m l).map Prod.fst).Nodup := by
    rw [aggCounts_keys]
    exact insKeys_nodup _ [] List.nodup_nil
  rw [List.pairwise_iff_get]
  intro i j hij hcnt
  have ha : (sortedIds s m l).get i ∈ (aggCounts s m l).map Prod.fst := by
    have hmem : (sortedIds s m l).get i ∈
        ((aggCounts s m l).map Prod.fst).insertionSort (countGE (aggCounts s m l)) :=
      List.get_mem (sortedIds s m l) i.1 i.2
    rwa [List.mem_insertionSort] at hmem
  have hb : (sortedIds s m l).get j ∈ (aggCounts s m l).map Prod.fst := by
    have hmem : (sortedIds s m l).get j ∈
        ((aggCounts s m l).map Prod.fst).insertionSort (countGE (aggCounts s m l)) :=
      List.get_mem (sortedIds s m l) j.1 j.2
    rwa [List.mem_insertionSort] at hmem
  have hne : (sortedIds s m l).get i ≠ (sortedIds s m l).get j := by
    intro hEq
    have hinj := List.nodup_iff_injective_get.mp hnodup
    exact absurd (hinj hEq) (by
      intro hEq2
      rw [hEq2] at hij
      exact lt_irrefl j hij)
  rcases pair_sublist_of_mem_ne _ hkeysNodup _ _ ha hb hne with hab | hba
  · refine insKeys_sublist_order (allIds s m l) _ _ ?_
    rwa [aggCounts_keys] at hab
  · exfalso
    have hge : countGE (aggCounts s m l) ((sortedIds s m l).get j)
        ((sortedIds s m l).get i) := by
      show ((aggCounts s m l).lookup _).getD 0 ≤ ((aggCounts s m l).lookup _).getD 0
      rw [aggCounts_lookup, aggCounts_lookup, hcnt]
    have hba' : List.Sublist [(sortedIds s m l).get j, (sortedIds s m l).get i]
        (sortedIds s m l) :=
      List.pair_sublist_insertionSort hge hba
    have hab' : List.Sublist [(sortedIds s m l).get i, (sortedIds s m l).get j]
        (sortedIds s m l) :=
      pair_sublist_of_get (sortedIds s m l) i.1 j.1 i.2 j.2 hij
    have h1 := indexOf_lt_of_pair_sublist _ hnodup _ _ hab'
    have h2 := indexOf_lt_of_pair_sublist _ hnodup _ _ hba'
    omega

end Spotify

/-- C3: for any three per-window item lists processed in the fixed order
short then medium then long, the aggregated output has pairwise-unique
artist ids; it is ordered by non-increasing total appearance count; ties
in count preserve the order of first observation across the windows (the
first occurrence index in the concatenated window ids); and, when each
window's list has duplicate-free ids, an artist present in exactly one
window never appears before one present in all three. -/
theorem C3_aggregation_order (short medium long : List Spotify.RawItem) :
    ((Spotify.get_all_top_artists short medium long).map Spotify.artistId).Nodup ∧
    List.Pairwise (fun d1 d2 =>
      Spotify.appearCount short medium long (Spotify.artistId d2) ≤
        Spotify.appearCount short medium long (Spotify.artistId d1))
      (Spotify.get_all_top_artists short medium long) ∧
    List.Pairwise (fun d1 d2 =>
      Spotify.appearCount short medium long (Spotify.artistId d1) =
        Spotify.appearCount short medium long (Spotify.artistId d2) →
      (Spotify.allIds short medium long).indexOf (Spotify.artistId d1) <
        (Spotify.allIds short medium long).indexOf (Spotify.artistId d2))
      (Spotify.get_all_top_artists short medium long) ∧
    ((short.map Spotify.RawItem.id).Nodup →
      (medium.map Spotify.RawItem.id).Nodup →
      (long.map Spotify.RawItem.id).Nodup →
      List.Pairwise (fun d1 d2 =>
        ¬(Spotify.inExactlyOne short medium long (Spotify.artistId d1) ∧
          Spotify.inAllThree short medium long (Spotify.artistId d2)))
        (Spotify.get_all_top_artists short medium long)) := by
  have hmap := Spotify.get_all_map_artistId short medium long
  refine ⟨?_, ?_, ?_, ?_⟩
  · rw [hmap]
    exact Spotify.sortedIds_nodup short medium long
  · have h1 : List.Pairwise
        (fun k1 k2 => Spotify.appearCount short medium long k2 ≤
          Spotify.appearCount short medium long k1)
        ((Spotify.get_all_top_artists short medium long).map Spotify.artistId) := by
      rw [hmap]
      exact Spotify.sortedIds_pairwise_counts short medium long
    exact List.pairwise_map.mp h1
  · have h1 : List.Pairwise
        (fun k1 k2 => Spotify.appearCount short medium long k1 =
            Spotify.appearCount short medium long k2 →
          (Spotify.allIds short medium long).indexOf k1 <
            (Spotify.allIds short medium long).indexOf k2)
        ((Spotify.get_all_top_artists short medium long).map Spotify.artistId) := by
      rw [hmap]
      exact Spotify.sortedIds_ties short medium long
    exact List.pairwise_map.mp h1
  · intro hs hm hl
    have h1 : List.Pairwise
        (fun k1 k2 => ¬(Spotify.inExactlyOne short medium long k1 ∧
          Spotify.inAllThree short medium long k2))
        ((Spotify.get_all_top_artists short medium long).map Spotify.artistId) := by
      rw [hmap]
      refine (Spotify.sortedIds_pairwise_counts short medium long).imp ?_
      intro a b hle
      rintro ⟨hone, hall⟩
      have hcb : Spotify.appearCount short medium long b = 3 := by
        obtain ⟨h1, h2, h3⟩ := hall
        rw [Spotify.appearCount_windows short medium long hs hm hl b,
          if_pos h1, if_pos h2, if_pos h3]
      have hca : Spotify.appearCount short medium long a = 1 := by
        rcases hone with ⟨h1, h2, h3⟩ | ⟨h1, h2, h3⟩ | ⟨h1, h2, h3⟩ <;>
          rw [Spotify.appearCount_windows short medium long hs hm hl a] <;>
          simp [h1, h2, h3]
      omega
    exact List.pairwise_map.mp h1

/-- Witness for C3's conditional conjunct at concrete windows: with
artist "b" in all three windows and artist "a" only in the short window,
the output never places "a" before "b". -/
theorem C3_witness :
    List.Pairwise (fun d1 d2 =>
      ¬(Spotify.inExactlyOne [⟨"a", "A", [], []⟩, ⟨"b", "B", [], []⟩]
          [⟨"b", "B", [], []⟩] [⟨"b", "B", [], []⟩] (Spotify.artistId d1) ∧
        Spotify.inAllThree [⟨"a", "A", [], []⟩, ⟨"b", "B", [], []⟩]
          [⟨"b", "B", [], []⟩] [⟨"b", "B", [], []⟩] (Spotify.artistId d2)))
      (Spotify.get_all_top_artists [⟨"a", "A", [], []⟩, ⟨"b", "B", [], []⟩]
        [⟨"b", "B", [], []⟩] [⟨"b", "B", [], []⟩]) :=
  (C3_aggregation_order [⟨"a", "A", [], []⟩, ⟨"b", "B", [], []⟩]
    [⟨"b", "B", [], []⟩] [⟨"b", "B", [], []⟩]).2.2.2
    (by decide) (by decide) (by decide)
